import Mathlib

/-!
# Quiz-room server (`src/server/server.js`)

A shallow embedding of the Socket.IO event handlers of `server.js`.

* The global `rooms` object is an association list from room code to room record.
  A property read `rooms[k]` first looks at the object's own keys and then falls
  through to `Object.prototype` (`rooms` is created by the literal `{}`), which is
  what `getRoom` returns as `Slot.inherited`.
* Every connection has a `socket` object carrying the ad hoc fields `roomCode`,
  `isHost` and `playerName`, and the set of Socket.IO rooms it has joined.  A socket
  that has not been seen yet has all fields `undefined`.
* A handler either runs to completion, giving the next state and the list of
  messages it emitted (in order), or stops with a `Fault`.
* Display names, room codes and socket ids are strings.  Scores and points are
  integer-valued JavaScript numbers: `jsAdd` is their sum as doubles, which is the
  exact sum as long as it stays below `2 ^ 53` in magnitude.
-/

namespace GameServer

/-! ## Data model -/

/-- The object pushed on `room.players` by the joinGame handler. -/
structure Player where
  id : String
  name : String
  score : Int
deriving DecidableEq, Repr

/-- The object stored under `rooms[roomCode]` by the createGame handler. -/
structure Room where
  hostId : String
  players : List Player
  started : Bool
  currentQuestion : Int
deriving DecidableEq, Repr

/-- The fields the handlers attach to a `socket`, with `undefined` as `none`
(`isHost` is only ever tested for truthiness, so `undefined` is `false`), and the
Socket.IO rooms entered through `socket.join`. -/
structure Socket where
  roomCode : Option String
  isHost : Bool
  playerName : Option String
  joined : List String
deriving DecidableEq, Repr

/-- The socket object of a fresh connection. -/
def Socket.fresh : Socket := ⟨none, false, none, []⟩

/-- The whole server state: the `rooms` object and the live socket objects. -/
structure State where
  rooms : List (String × Room)
  sockets : List (String × Socket)
deriving DecidableEq, Repr

/-- The state of a server that has just been started: `const rooms = {}`. -/
def State.empty : State := ⟨[], []⟩

/-- Payload of an outbound event, one constructor per event name. -/
inductive Payload where
  | gameCreated (roomCode : String)
  | error (message : String)
  | playerList (players : List Player) (count : Nat)
  | joinedGame (roomCode playerName : String)
  | gameStarted (message : String) (players : List Player)
  | scoreUpdated (playerId playerName : String) (score : Int)
  | gameEnded (leaderboard : List Player)
  | hostDisconnected (message : String)
deriving DecidableEq, Repr

/-- An emitted message: `socket.emit` goes to the calling socket,
`io.to(roomCode).emit` to a Socket.IO room. -/
inductive Msg where
  | toSocket (id : String) (p : Payload)
  | toRoom (roomCode : String) (p : Payload)
deriving DecidableEq, Repr

/-- An inbound event with its payload.  The `createGame` event carries the values
that the successive calls of `Math.random` will produce while it runs, each already
in the form `Math.floor(100000 + Math.random() * 900000) - 100000`. -/
inductive Event where
  | createGame (draws : List (Fin 900000))
  | joinGame (roomCode playerName : String)
  | startGame
  | submitAnswer (questionIndex points : Int)
  | endGame
  | disconnect
deriving DecidableEq, Repr

/-- Ways a handler fails to run to completion. -/
inductive Fault where
  /-- A `TypeError` is thrown (a method is called on `undefined`). -/
  | typeError
  /-- Every supplied draw collided: the `do … while` loop is still running. -/
  | outOfDraws
deriving DecidableEq, Repr

deriving instance DecidableEq for Except

/-! ## The `rooms` object -/

/-- The string-keyed properties every object literal inherits from `Object.prototype`. -/
def objectPrototypeKeys : List String :=
  ["constructor", "__defineGetter__", "__defineSetter__", "hasOwnProperty",
   "__lookupGetter__", "__lookupSetter__", "isPrototypeOf", "propertyIsEnumerable",
   "toString", "valueOf", "__proto__", "toLocaleString"]

/-- Own property lookup. -/
def ownRoom : List (String × Room) → String → Option Room
  | [], _ => none
  | (k, r) :: rest, code => if k = code then some r else ownRoom rest code

/-- Result of the property read `rooms[code]`. -/
inductive Slot where
  /-- `undefined`. -/
  | undef
  /-- A member of `Object.prototype`: truthy, without `hostId`, `players`, `started`. -/
  | inherited
  /-- A room record stored by createGame. -/
  | own (r : Room)
deriving DecidableEq, Repr

/-- The property read `rooms[code]`. -/
def getRoom (rooms : List (String × Room)) (code : String) : Slot :=
  match ownRoom rooms code with
  | some r => Slot.own r
  | none => if code ∈ objectPrototypeKeys then Slot.inherited else Slot.undef

/-- The property read `rooms[socket.roomCode]`.  With `socket.roomCode` undefined the
key read is the string `undefined`, which is never written: keys are only ever
created by createGame, from `generateRoomCode`. -/
def getBoundRoom (rooms : List (String × Room)) : Option String → Slot
  | none => Slot.undef
  | some code => getRoom rooms code

/-- The assignment `rooms[code] = r` (also the effect of mutating the record stored
under `code` in place). -/
def setRoom : List (String × Room) → String → Room → List (String × Room)
  | [], code, r => [(code, r)]
  | (k, r0) :: rest, code, r =>
    if k = code then (k, r) :: rest else (k, r0) :: setRoom rest code r

/-- The statement `delete rooms[code]`. -/
def deleteRoom (rooms : List (String × Room)) (code : String) : List (String × Room) :=
  rooms.filter (fun e => e.1 ≠ code)

/-! ## Socket objects -/

/-- The socket object of connection `sid`. -/
def ownSocket : List (String × Socket) → String → Option Socket
  | [], _ => none
  | (k, b) :: rest, sid => if k = sid then some b else ownSocket rest sid

/-- The socket object of connection `sid`, fresh if the connection is new. -/
def getSocket (sockets : List (String × Socket)) (sid : String) : Socket :=
  (ownSocket sockets sid).getD Socket.fresh

/-- Field updates on the socket object of connection `sid`. -/
def setSocket : List (String × Socket) → String → Socket → List (String × Socket)
  | [], sid, b => [(sid, b)]
  | (k, b0) :: rest, sid, b =>
    if k = sid then (k, b) :: rest else (k, b0) :: setSocket rest sid b

/-- The socket object of a closed connection is gone. -/
def dropSocket (sockets : List (String × Socket)) (sid : String) : List (String × Socket) :=
  sockets.filter (fun e => e.1 ≠ sid)

/-- The call `socket.join(code)`: room membership is a set. -/
def Socket.join (b : Socket) (code : String) : Socket :=
  { b with joined := if code ∈ b.joined then b.joined else b.joined ++ [code] }

/-! ## Messages -/

def msgRoomNotFound : String := "Өрөө олдсонгүй!"
def msgAlreadyStarted : String := "Тоглоом аль хэдийн эхэлсэн байна!"
def msgNameTaken : String := "Энэ нэр аль хэдийн ашиглагдаж байна!"
def msgHostOnly : String := "Зөвхөн зохион байгуулагч тоглоом эхлүүлэх боломжтой!"
def msgNoPlayers : String := "Тоглогч байхгүй байна!"
def msgGameStarted : String := "Тоглоом эхэллээ!"
def msgHostLeft : String := "Зохион байгуулагч салсан тул тоглоом дууслаа!"

/-! ## `generateRoomCode` -/

/-- Truthiness of `rooms[code]`. -/
def Slot.truthy : Slot → Bool
  | Slot.undef => false
  | _ => true

/-- The function `generateRoomCode`: draw, convert to a string, repeat while
`rooms[code]` is truthy.  The list holds the draws still to come; `none` when it
runs out before a free code is drawn. -/
def generateRoomCode (rooms : List (String × Room)) : List (Fin 900000) → Option String
  | [] => none
  | d :: ds =>
    let code := toString (100000 + d.val)
    if (getRoom rooms code).truthy then generateRoomCode rooms ds else some code

/-! ## Event handlers -/

/-- Handler of `createGame`. -/
def createGame (s : State) (sid : String) (draws : List (Fin 900000)) :
    Except Fault (State × List Msg) :=
  match generateRoomCode s.rooms draws with
  | none => Except.error Fault.outOfDraws
  | some roomCode =>
    let rooms := setRoom s.rooms roomCode ⟨sid, [], false, 0⟩
    let sock := (getSocket s.sockets sid).join roomCode
    let sock := { sock with roomCode := some roomCode, isHost := true }
    Except.ok (⟨rooms, setSocket s.sockets sid sock⟩,
      [Msg.toSocket sid (Payload.gameCreated roomCode)])

/-- The test `room.players.some(p => p.name === playerName)`. -/
def nameExists (players : List Player) (playerName : String) : Bool :=
  players.any (fun p => p.name = playerName)

/-- Handler of `joinGame`. -/
def joinGame (s : State) (sid : String) (roomCode playerName : String) :
    Except Fault (State × List Msg) :=
  match getRoom s.rooms roomCode with
  | Slot.undef => Except.ok (s, [Msg.toSocket sid (Payload.error msgRoomNotFound)])
  | Slot.inherited =>
    -- `room.started` is undefined, then `room.players.some` is called on undefined
    Except.error Fault.typeError
  | Slot.own room =>
    if room.started then
      Except.ok (s, [Msg.toSocket sid (Payload.error msgAlreadyStarted)])
    else if nameExists room.players playerName then
      Except.ok (s, [Msg.toSocket sid (Payload.error msgNameTaken)])
    else
      let player : Player := ⟨sid, playerName, 0⟩
      let room := { room with players := room.players ++ [player] }
      let sock := (getSocket s.sockets sid).join roomCode
      let sock := { sock with
        roomCode := some roomCode, playerName := some playerName, isHost := false }
      Except.ok (⟨setRoom s.rooms roomCode room, setSocket s.sockets sid sock⟩,
        [Msg.toRoom roomCode (Payload.playerList room.players room.players.length),
         Msg.toSocket sid (Payload.joinedGame roomCode playerName)])

/-- Handler of `startGame`. -/
def startGame (s : State) (sid : String) : Except Fault (State × List Msg) :=
  let roomCode := (getSocket s.sockets sid).roomCode
  match roomCode, getBoundRoom s.rooms roomCode with
  | some code, Slot.own room =>
    if room.hostId ≠ sid then
      Except.ok (s, [Msg.toSocket sid (Payload.error msgHostOnly)])
    else if room.players.length = 0 then
      Except.ok (s, [Msg.toSocket sid (Payload.error msgNoPlayers)])
    else
      let room := { room with started := true }
      Except.ok ({ s with rooms := setRoom s.rooms code room },
        [Msg.toRoom code (Payload.gameStarted msgGameStarted room.players)])
  | _, _ =>
    -- `!room`, or `room.hostId` is undefined and so differs from `socket.id`
    Except.ok (s, [Msg.toSocket sid (Payload.error msgHostOnly)])

/-- The least number of halvings that bring `m` below `2 ^ 53`; `fuel` bounds the
number of steps and `m` itself is always enough. -/
def doubleScale : Nat → Nat → Nat
  | 0, _ => 0
  | fuel + 1, m => if m < 2 ^ 53 then 0 else doubleScale fuel (m / 2) + 1

/-- The JavaScript number (IEEE 754 double) nearest to the integer `n`: integers of
magnitude below `2 ^ 53` are kept, larger ones are rounded to a 53-bit significand,
ties going to the even significand.  The exponent is not bounded here: magnitudes of
`2 ^ 1024` and above, which JavaScript turns into `Infinity`, are outside the
embedding. -/
def roundDouble (n : Int) : Int :=
  let m := n.natAbs
  if m < 2 ^ 53 then n
  else
    let e := doubleScale m m
    let q := m / 2 ^ e
    let r := m % 2 ^ e
    let q' := if 2 ^ e < 2 * r ∨ (2 * r = 2 ^ e ∧ q % 2 = 1) then q + 1 else q
    Int.sign n * ((q' * 2 ^ e : Nat) : Int)

/-- The sum `score + points` as JavaScript computes it on numbers: `points` is the
number the integer in the payload is read as, and the exact sum is rounded to the
nearest double. -/
def jsAdd (score points : Int) : Int :=
  roundDouble (score + roundDouble points)

/-- The statement `player.score += points` on the record returned by
`room.players.find(p => p.id === socket.id)`, the first one with that id. -/
def addScore : List Player → String → Int → List Player
  | [], _, _ => []
  | p :: rest, sid, points =>
    if p.id = sid then { p with score := jsAdd p.score points } :: rest
    else p :: addScore rest sid points

/-- Handler of `submitAnswer`. -/
def submitAnswer (s : State) (sid : String) (_questionIndex points : Int) :
    Except Fault (State × List Msg) :=
  let roomCode := (getSocket s.sockets sid).roomCode
  match roomCode, getBoundRoom s.rooms roomCode with
  | some code, Slot.own room =>
    match room.players.find? (fun p => p.id = sid) with
    | none => Except.ok (s, [])
    | some player =>
      let room := { room with players := addScore room.players sid points }
      Except.ok ({ s with rooms := setRoom s.rooms code room },
        [Msg.toRoom code
          (Payload.scoreUpdated sid player.name (jsAdd player.score points))])
  | _, Slot.inherited => Except.error Fault.typeError
  | _, _ => Except.ok (s, [])

/-- The comparator `(a, b) => b.score - a.score` of the endGame handler. -/
def compareScore (a b : Player) : Int := b.score - a.score

/-- The expression `[...players].sort((a, b) => b.score - a.score)`:
`Array.prototype.sort` is a stable sort that puts `a` before `b` when the comparator
is negative and keeps their order when it is zero. -/
def sortPlayers (players : List Player) : List Player :=
  players.insertionSort (fun a b => compareScore a b ≤ 0)

/-- Handler of `endGame`. -/
def endGame (s : State) (sid : String) : Except Fault (State × List Msg) :=
  let roomCode := (getSocket s.sockets sid).roomCode
  match roomCode, getBoundRoom s.rooms roomCode with
  | some code, Slot.own room =>
    if room.hostId ≠ sid then Except.ok (s, [])
    else Except.ok (s, [Msg.toRoom code (Payload.gameEnded (sortPlayers room.players))])
  | _, _ => Except.ok (s, [])

/-- The statement `room.players.splice(playerIndex, 1)` with
`playerIndex = room.players.findIndex(p => p.id === socket.id)`. -/
def removePlayer : List Player → String → List Player
  | [], _ => []
  | p :: rest, sid => if p.id = sid then rest else p :: removePlayer rest sid

/-- Handler of `disconnect`.  The socket object does not outlive the handler. -/
def disconnect (s : State) (sid : String) : Except Fault (State × List Msg) :=
  let sock := getSocket s.sockets sid
  let sockets := dropSocket s.sockets sid
  match sock.roomCode, getBoundRoom s.rooms sock.roomCode with
  | some code, Slot.own room =>
    if sock.isHost then
      Except.ok (⟨deleteRoom s.rooms code, sockets⟩,
        [Msg.toRoom code (Payload.hostDisconnected msgHostLeft)])
    else if room.players.any (fun p => p.id = sid) then
      let room := { room with players := removePlayer room.players sid }
      Except.ok (⟨setRoom s.rooms code room, sockets⟩,
        [Msg.toRoom code (Payload.playerList room.players room.players.length)])
    else Except.ok (⟨s.rooms, sockets⟩, [])
  | some code, Slot.inherited =>
    if sock.isHost then
      Except.ok (⟨deleteRoom s.rooms code, sockets⟩,
        [Msg.toRoom code (Payload.hostDisconnected msgHostLeft)])
    else Except.error Fault.typeError
  | _, _ => Except.ok (⟨s.rooms, sockets⟩, [])

/-- Dispatch of one inbound event of connection `sid`. -/
def step (s : State) (sid : String) : Event → Except Fault (State × List Msg)
  | Event.createGame draws => createGame s sid draws
  | Event.joinGame roomCode playerName => joinGame s sid roomCode playerName
  | Event.startGame => startGame s sid
  | Event.submitAnswer questionIndex points => submitAnswer s sid questionIndex points
  | Event.endGame => endGame s sid
  | Event.disconnect => disconnect s sid

/-- Run a sequence of events, stopping at the first fault; the messages are dropped. -/
def run (s : State) : List (String × Event) → Except Fault State
  | [] => Except.ok s
  | (sid, ev) :: rest =>
    match step s sid ev with
    | Except.error f => Except.error f
    | Except.ok (s', _) => run s' rest

/-- States the server can be in: those reached from the empty store by events that
ran to completion. -/
inductive Reachable : State → Prop where
  | init : Reachable State.empty
  | step {s s' : State} {out : List Msg} (sid : String) (ev : Event) :
      Reachable s → step s sid ev = Except.ok (s', out) → Reachable s'

/-! ## Predicates used in the statements, example states and traces -/

/-- Host `h` opens room 100000, `a` joins as `A`, `h` starts the game. -/
def startedTrace : List (String × Event) :=
  [("h", Event.createGame [0]), ("a", Event.joinGame "100000" "A"), ("h", Event.startGame)]

/-- Connection `h` creates a game twice and then disconnects. -/
def hostTwiceTrace : List (String × Event) :=
  [("h", Event.createGame [0]), ("h", Event.createGame [1]), ("h", Event.disconnect)]

/-- Connection `p` joins room 100000, then room 100001, then disconnects. -/
def joinTwiceTrace : List (String × Event) :=
  [("h1", Event.createGame [0]), ("h2", Event.createGame [1]),
   ("p", Event.joinGame "100000" "a"), ("p", Event.joinGame "100001" "a"),
   ("p", Event.disconnect)]

/-- The state reached by `startedTrace`. -/
def startedState : State :=
  ⟨[("100000", ⟨"h", [⟨"a", "A", 0⟩], true, 0⟩)],
   [("h", ⟨some "100000", true, none, ["100000"]⟩),
    ("a", ⟨some "100000", false, some "A", ["100000"]⟩)]⟩

/-- The room of the store the caller's socket is bound to, with its code. -/
def boundOwnRoom (s : State) (sid : String) : Option (String × Room) :=
  match (getSocket s.sockets sid).roomCode with
  | none => none
  | some code => (ownRoom s.rooms code).map (fun room => (code, room))

/-- The caller's socket is bound to a room of the store whose `hostId` is the
caller's id and that has at least one member. -/
def canStart (s : State) (sid : String) : Bool :=
  match boundOwnRoom s sid with
  | none => false
  | some (_, room) => decide (room.hostId = sid) && !room.players.isEmpty

/-- The startGame handler took its success path: it ran to completion, the record of
the caller's bound room now has `started = true` while nothing else in the state
changed, and the only message is the gameStarted broadcast to that room with its
member list. -/
def startSucceeded (s : State) (sid : String) : Bool :=
  match boundOwnRoom s sid with
  | none => false
  | some (code, room) =>
    decide (startGame s sid =
      Except.ok (⟨setRoom s.rooms code { room with started := true }, s.sockets⟩,
        [Msg.toRoom code (Payload.gameStarted msgGameStarted room.players)])) &&
    decide (ownRoom (setRoom s.rooms code { room with started := true }) code =
      some { room with started := true })

/-- Room 100000 of host `h` with the single member `a`, not started. -/
def lobbyState : State :=
  ⟨[("100000", ⟨"h", [⟨"a", "A", 0⟩], false, 0⟩)],
   [("h", ⟨some "100000", true, none, ["100000"]⟩),
    ("a", ⟨some "100000", false, some "A", ["100000"]⟩)]⟩

/-- Room 100000 of host `h` with members A (10), B (10), C (5) in join order. -/
def leaderboardState : State :=
  ⟨[("100000", ⟨"h", [⟨"a", "A", 10⟩, ⟨"b", "B", 10⟩, ⟨"c", "C", 5⟩], true, 0⟩)],
   [("h", ⟨some "100000", true, none, ["100000"]⟩)]⟩

/-- Room 100000 of host `h` with members A, B, C; `b` is about to leave. -/
def threePlayers : State :=
  ⟨[("100000", ⟨"h", [⟨"a", "A", 3⟩, ⟨"b", "B", 2⟩, ⟨"c", "C", 1⟩], true, 0⟩),
    ("100001", ⟨"g", [], false, 0⟩)],
   [("b", ⟨some "100000", false, some "B", ["100000"]⟩)]⟩

/-- In every room of the store the member names are pairwise distinct. -/
def NamesUnique (rooms : List (String × Room)) : Prop :=
  ∀ code room, ownRoom rooms code = some room → (room.players.map Player.name).Nodup

/-- What one handler run can do to the store. -/
inductive StoreUpdate (sid : String) (rooms rooms' : List (String × Room)) : Event → Prop where
  | same (ev : Event) : rooms' = rooms → StoreUpdate sid rooms rooms' ev
  | created (draws : List (Fin 900000)) (code : String) :
      generateRoomCode rooms draws = some code →
      rooms' = setRoom rooms code ⟨sid, [], false, 0⟩ →
      StoreUpdate sid rooms rooms' (Event.createGame draws)
  | joined (code playerName : String) (room : Room) :
      ownRoom rooms code = some room → room.started = false →
      nameExists room.players playerName = false →
      rooms' = setRoom rooms code
        { room with players := room.players ++ [⟨sid, playerName, 0⟩] } →
      StoreUpdate sid rooms rooms' (Event.joinGame code playerName)
  | started (code : String) (room : Room) :
      ownRoom rooms code = some room → room.hostId = sid →
      rooms' = setRoom rooms code { room with started := true } →
      StoreUpdate sid rooms rooms' Event.startGame
  | scored (code : String) (room : Room) (q points : Int) :
      ownRoom rooms code = some room →
      rooms' = setRoom rooms code { room with players := addScore room.players sid points } →
      StoreUpdate sid rooms rooms' (Event.submitAnswer q points)
  | deleted (code : String) :
      rooms' = deleteRoom rooms code → StoreUpdate sid rooms rooms' Event.disconnect
  | left (code : String) (room : Room) :
      ownRoom rooms code = some room →
      rooms' = setRoom rooms code { room with players := removePlayer room.players sid } →
      StoreUpdate sid rooms rooms' Event.disconnect

/-- Host `h` opens room 100000 and `a` joins as `A`. -/
def lobbyTrace : List (String × Event) :=
  [("h", Event.createGame [0]), ("a", Event.joinGame "100000" "A")]

/-- The event is a createGame. -/
def Event.isCreateGame : Event → Bool
  | Event.createGame _ => true
  | _ => false

/-- Run a sequence of events, stopping at the first fault, and collect the messages
of all handlers in the order they were emitted. -/
def runOut (s : State) : List (String × Event) → Except Fault (State × List Msg)
  | [] => Except.ok (s, [])
  | (sid, ev) :: rest =>
    match step s sid ev with
    | Except.error f => Except.error f
    | Except.ok (s1, out) =>
      match runOut s1 rest with
      | Except.error f => Except.error f
      | Except.ok (s2, out') => Except.ok (s2, out ++ out')

/-- The joinGame events of the connection and name pairs `joins`, all for `code`. -/
def joinEvents (code : String) (joins : List (String × String)) : List (String × Event) :=
  joins.map (fun j => (j.1, Event.joinGame code j.2))

/-- The player records of the connection and name pairs `joins`, in order. -/
def joinedPlayers (joins : List (String × String)) : List Player :=
  joins.map (fun j => ⟨j.1, j.2, 0⟩)

/-- The messages of successful joins into room `code` whose member list was `before`:
for each join the playerList broadcast with the list so far and its length, then
the joinedGame confirmation to the joining connection. -/
def joinMessages (code : String) : List Player → List (String × String) → List Msg
  | _, [] => []
  | before, (sid, playerName) :: rest =>
    Msg.toRoom code (Payload.playerList (before ++ [Player.mk sid playerName 0])
      (before ++ [Player.mk sid playerName 0]).length) ::
    Msg.toSocket sid (Payload.joinedGame code playerName) ::
    joinMessages code (before ++ [Player.mk sid playerName 0]) rest

/-- The event is a joinGame or a startGame. -/
def Event.isJoinOrStart : Event → Bool
  | Event.joinGame _ _ => true
  | Event.startGame => true
  | _ => false

/-- No room code in use, as a store key or in a socket's `roomCode` field, is the
name of a member of `Object.prototype`. -/
def CodesClean (s : State) : Prop :=
  (∀ code room, ownRoom s.rooms code = some room → code ∉ objectPrototypeKeys) ∧
  (∀ sid code, (getSocket s.sockets sid).roomCode = some code →
    code ∉ objectPrototypeKeys)

/-- Room 100000 of host `h`, started, with the single member `a` who has 3 points. -/
def playingState : State :=
  ⟨[("100000", ⟨"h", [⟨"a", "A", 3⟩], true, 0⟩)],
   [("h", ⟨some "100000", true, none, ["100000"]⟩),
    ("a", ⟨some "100000", false, some "A", ["100000"]⟩)]⟩

/-- Host `h` opens room 100000, `a` joins, `h` starts, `a` scores 3 points. -/
def playingTrace : List (String × Event) :=
  [("h", Event.createGame [0]), ("a", Event.joinGame "100000" "A"), ("h", Event.startGame),
   ("a", Event.submitAnswer 0 3)]

/-- Room 100000 of host `h`, freshly created. -/
def createdState : State :=
  ⟨[("100000", ⟨"h", [], false, 0⟩)], [("h", ⟨some "100000", true, none, ["100000"]⟩)]⟩

/-- Host `h` opens room 100000, then `a` joins as `A` and `b` joins as `B`. -/
def twoPlayersTrace : List (String × Event) :=
  [("h", Event.createGame [0]), ("a", Event.joinGame "100000" "A"),
   ("b", Event.joinGame "100000" "B")]

/-- The state reached by `twoPlayersTrace`. -/
def twoPlayersState : State :=
  ⟨[("100000", ⟨"h", [⟨"a", "A", 0⟩, ⟨"b", "B", 0⟩], false, 0⟩)],
   [("h", ⟨some "100000", true, none, ["100000"]⟩),
    ("a", ⟨some "100000", false, some "A", ["100000"]⟩),
    ("b", ⟨some "100000", false, some "B", ["100000"]⟩)]⟩

/-! ## The store: reads after writes -/

theorem ownRoom_setRoom_self (rooms : List (String × Room)) (code : String) (r : Room) :
    ownRoom (setRoom rooms code r) code = some r := by
  induction rooms with
  | nil => simp [setRoom, ownRoom]
  | cons e rest ih =>
    obtain ⟨k, r0⟩ := e
    by_cases hk : k = code
    · simp [setRoom, ownRoom, hk]
    · simp [setRoom, ownRoom, hk, ih]

theorem ownRoom_setRoom_other (rooms : List (String × Room)) (code code' : String) (r : Room)
    (hne : code' ≠ code) : ownRoom (setRoom rooms code r) code' = ownRoom rooms code' := by
  induction rooms with
  | nil => simp [setRoom, ownRoom, Ne.symm hne]
  | cons e rest ih =>
    obtain ⟨k, r0⟩ := e
    by_cases hk : k = code
    · subst hk
      simp [setRoom, ownRoom, Ne.symm hne]
    · by_cases hk' : k = code'
      · subst hk'
        simp [setRoom, ownRoom, hk]
      · simp [setRoom, ownRoom, hk, hk', ih]

theorem ownRoom_deleteRoom_self (rooms : List (String × Room)) (code : String) :
    ownRoom (deleteRoom rooms code) code = none := by
  induction rooms with
  | nil => simp [deleteRoom, ownRoom]
  | cons e rest ih =>
    obtain ⟨k, r0⟩ := e
    by_cases hk : k = code
    · simpa [deleteRoom, hk] using ih
    · simpa [deleteRoom, ownRoom, hk] using ih

theorem ownRoom_deleteRoom_other (rooms : List (String × Room)) (code code' : String)
    (hne : code' ≠ code) : ownRoom (deleteRoom rooms code) code' = ownRoom rooms code' := by
  induction rooms with
  | nil => simp [deleteRoom, ownRoom]
  | cons e rest ih =>
    obtain ⟨k, r0⟩ := e
    by_cases hk : k = code
    · subst hk
      simpa [deleteRoom, ownRoom, Ne.symm hne] using ih
    · by_cases hk' : k = code'
      · subst hk'
        simp [deleteRoom, ownRoom, hk]
      · simpa [deleteRoom, ownRoom, hk, hk'] using ih

theorem getRoom_of_own {rooms : List (String × Room)} {code : String} {r : Room}
    (h : ownRoom rooms code = some r) : getRoom rooms code = Slot.own r := by
  simp [getRoom, h]

theorem getRoom_eq_own {rooms : List (String × Room)} {code : String} {r : Room}
    (h : getRoom rooms code = Slot.own r) : ownRoom rooms code = some r := by
  unfold getRoom at h
  cases ho : ownRoom rooms code with
  | some r0 => rw [ho] at h; simpa using h
  | none =>
    rw [ho] at h
    by_cases hp : code ∈ objectPrototypeKeys <;> simp [hp] at h

/-! ## Decimal room codes -/

theorem digitChar_isDigit (k : Nat) (hk : k < 10) : (Nat.digitChar k).isDigit = true := by
  interval_cases k <;> decide

theorem toDigitsCore_isDigit (fuel : Nat) : ∀ (n : Nat) (acc : List Char),
    (∀ c ∈ acc, c.isDigit = true) → ∀ c ∈ Nat.toDigitsCore 10 fuel n acc, c.isDigit = true := by
  induction fuel with
  | zero => intro n acc hacc; simpa [Nat.toDigitsCore] using hacc
  | succ fuel ih =>
    intro n acc hacc
    have hd : (Nat.digitChar (n % 10)).isDigit = true :=
      digitChar_isDigit _ (Nat.mod_lt _ (by decide))
    have hacc' : ∀ c ∈ Nat.digitChar (n % 10) :: acc, c.isDigit = true := by
      intro c hc
      rcases List.mem_cons.1 hc with h | h
      · rw [h]; exact hd
      · exact hacc c h
    simp only [Nat.toDigitsCore]
    split
    · exact hacc'
    · exact ih _ _ hacc'

theorem toDigitsCore_length_eq (k : Nat) : ∀ (fuel n : Nat) (acc : List Char),
    n < fuel → n < 10 ^ (k + 1) → (k = 0 ∨ 10 ^ k ≤ n) →
    (Nat.toDigitsCore 10 fuel n acc).length = acc.length + (k + 1) := by
  induction k with
  | zero =>
    intro fuel n acc hf hlt _
    obtain ⟨fuel, rfl⟩ : ∃ f, fuel = f + 1 := ⟨fuel - 1, by omega⟩
    have h0 : n / 10 = 0 := by simp at hlt; omega
    simp [Nat.toDigitsCore, h0]
  | succ k ih =>
    intro fuel n acc hf hlt hge
    obtain ⟨fuel, rfl⟩ : ∃ f, fuel = f + 1 := ⟨fuel - 1, by omega⟩
    have hge' : 10 ^ (k + 1) ≤ n := by
      rcases hge with h | h
      · omega
      · exact h
    have hpos : 0 < 10 ^ k := Nat.pow_pos (by decide)
    have hpow : 10 ^ (k + 1) = 10 * 10 ^ k := by rw [pow_succ]; ring
    have hpow2 : 10 ^ (k + 1 + 1) = 10 * 10 ^ (k + 1) := by rw [pow_succ]; ring
    have h0 : n / 10 ≠ 0 := by omega
    have h1 : n / 10 < fuel := by omega
    have h2 : n / 10 < 10 ^ (k + 1) := by omega
    have h3 : k = 0 ∨ 10 ^ k ≤ n / 10 := Or.inr (by omega)
    simp only [Nat.toDigitsCore, h0, if_false]
    rw [ih fuel (n / 10) _ h1 h2 h3]
    simp
    omega

/-- The decimal form of an integer in `[100000, 999999]` has exactly six characters,
all of them ASCII digits. -/
theorem roomCode_six_digits (n : Nat) (hlo : 100000 ≤ n) (hhi : n ≤ 999999) :
    (toString n).length = 6 ∧ ∀ c ∈ (toString n).data, c.isDigit = true := by
  have hs : (toString n).data = Nat.toDigits 10 n := rfl
  constructor
  · show (toString n).data.length = 6
    rw [hs]
    unfold Nat.toDigits
    have := toDigitsCore_length_eq 5 (n + 1) n [] (by omega) (by norm_num; omega)
      (Or.inr (by norm_num; omega))
    simpa using this
  · rw [hs]
    unfold Nat.toDigits
    exact toDigitsCore_isDigit _ _ _ (by simp)

theorem prototypeKey_not_digits :
    ∀ k ∈ objectPrototypeKeys, ¬ (∀ c ∈ k.data, c.isDigit = true) := by
  decide

theorem roomCode_not_prototypeKey (d : Fin 900000) :
    toString (100000 + d.val) ∉ objectPrototypeKeys := by
  intro h
  have hd := d.isLt
  exact prototypeKey_not_digits _ h (roomCode_six_digits _ (by omega) (by omega)).2

/-! ## joinGame: rejected joins -/

/-- C1, as amended: for every room present in the store and every display name equal
to the name of one of its members, joinGame with that room code and name runs to
completion, leaves the whole state (the member list included) unchanged and emits
exactly one message, an error to the caller: the name-taken text when the room has
not started, the game-already-started text when it has. -/
theorem joinGame_name_collision (s : State) (sid roomCode playerName : String) (room : Room)
    (hroom : ownRoom s.rooms roomCode = some room)
    (hname : ∃ p ∈ room.players, p.name = playerName) :
    joinGame s sid roomCode playerName =
      Except.ok (s, [Msg.toSocket sid (Payload.error
        (if room.started then msgAlreadyStarted else msgNameTaken))]) := by
  have hex : nameExists room.players playerName = true := by
    obtain ⟨p, hp, hpn⟩ := hname
    simp only [nameExists, List.any_eq_true, decide_eq_true_eq]
    exact ⟨p, hp, hpn⟩
  unfold joinGame
  rw [getRoom_of_own hroom]
  cases hst : room.started <;> simp [hex, hst]

theorem joinGame_name_collision_witness :
    joinGame startedState "c" "100000" "A" =
      Except.ok (startedState, [Msg.toSocket "c" (Payload.error
        (if (Room.mk "h" [⟨"a", "A", 0⟩] true 0).started
          then msgAlreadyStarted else msgNameTaken))]) :=
  joinGame_name_collision startedState "c" "100000" "A" ⟨"h", [⟨"a", "A", 0⟩], true, 0⟩
    (by decide) ⟨⟨"a", "A", 0⟩, by decide, by decide⟩

/-- C1 fails as stated: in a reachable state whose room 100000 has started and has a
member named `A`, a join under the name `A` is answered with the
game-already-started error, not the name-taken one. -/
theorem joinGame_name_collision_counterexample :
    run State.empty startedTrace = Except.ok startedState ∧
    ownRoom startedState.rooms "100000" = some ⟨"h", [⟨"a", "A", 0⟩], true, 0⟩ ∧
    joinGame startedState "c" "100000" "A" =
      Except.ok (startedState, [Msg.toSocket "c" (Payload.error msgAlreadyStarted)]) ∧
    joinGame startedState "c" "100000" "A" ≠
      Except.ok (startedState, [Msg.toSocket "c" (Payload.error msgNameTaken)]) := by
  decide

/-- C6: for every room of the store with `started = true`, every connection and every
display name, joinGame with that room code runs to completion, emits exactly the
game-already-started error to the caller and leaves the state (store and socket
fields) unchanged. -/
theorem joinGame_started (s : State) (sid roomCode playerName : String) (room : Room)
    (hroom : ownRoom s.rooms roomCode = some room) (hstarted : room.started = true) :
    joinGame s sid roomCode playerName =
      Except.ok (s, [Msg.toSocket sid (Payload.error msgAlreadyStarted)]) ∧
    msgAlreadyStarted = "Тоглоом аль хэдийн эхэлсэн байна!" := by
  unfold joinGame
  rw [getRoom_of_own hroom]
  simp [hstarted, msgAlreadyStarted]

theorem joinGame_started_witness :
    joinGame startedState "c" "100000" "B" =
      Except.ok (startedState, [Msg.toSocket "c" (Payload.error msgAlreadyStarted)]) ∧
    msgAlreadyStarted = "Тоглоом аль хэдийн эхэлсэн байна!" :=
  joinGame_started startedState "c" "100000" "B" ⟨"h", [⟨"a", "A", 0⟩], true, 0⟩
    (by decide) (by decide)

/-! ## disconnect after a second createGame or joinGame -/

/-- C2 at its failing input: connection `h` sends createGame twice and disconnects.
Every event runs to completion, and the room created first is still in the store,
with `hostId = h`, after the disconnect of `h`. -/
theorem disconnect_keeps_earlier_room_of_host :
    run State.empty hostTwiceTrace =
      Except.ok ⟨[("100000", ⟨"h", [], false, 0⟩)], []⟩ ∧
    ∃ room, ownRoom [("100000", ⟨"h", [], false, 0⟩)] "100000" = some room ∧
      room.hostId = "h" := by
  refine ⟨by decide, ⟨"h", [], false, 0⟩, by decide, rfl⟩

/-- C3 at its failing input: connection `p` joins room 100000, then room 100001, and
disconnects.  Every event runs to completion, and room 100000 still has a member
with id `p` after the disconnect of `p`. -/
theorem disconnect_keeps_earlier_record_of_player :
    run State.empty joinTwiceTrace =
      Except.ok ⟨[("100000", ⟨"h1", [⟨"p", "a", 0⟩], false, 0⟩),
                  ("100001", ⟨"h2", [], false, 0⟩)],
                 [("h1", ⟨some "100000", true, none, ["100000"]⟩),
                  ("h2", ⟨some "100001", true, none, ["100001"]⟩)]⟩ ∧
    ∃ room, ownRoom [("100000", ⟨"h1", [⟨"p", "a", 0⟩], false, 0⟩),
        ("100001", ⟨"h2", [], false, 0⟩)] "100000" = some room ∧
      ∃ m ∈ room.players, m.id = "p" := by
  refine ⟨by decide, ⟨"h1", [⟨"p", "a", 0⟩], false, 0⟩, by decide, ⟨"p", "a", 0⟩, ?_, rfl⟩
  simp

/-! ## startGame -/

/-- C4: for every state and connection, startGame sets `started = true` on the
caller's bound room and broadcasts gameStarted with the current member list if and
only if the caller's id is the `hostId` of that room and its member list is not
empty; in every other case the handler runs to completion, the state is unchanged
and the only message is an error to the caller (the host-only text or the
no-players text). -/
theorem startGame_iff_host_and_players (s : State) (sid : String) :
    (startSucceeded s sid = true ↔ canStart s sid = true) ∧
    (canStart s sid = false →
      ∃ message, (message = msgHostOnly ∨ message = msgNoPlayers) ∧
        startGame s sid = Except.ok (s, [Msg.toSocket sid (Payload.error message)])) := by
  cases hb : (getSocket s.sockets sid).roomCode with
  | none =>
    refine ⟨by simp [startSucceeded, canStart, boundOwnRoom, hb], fun _ => ?_⟩
    exact ⟨msgHostOnly, Or.inl rfl, by simp [startGame, hb, getBoundRoom]⟩
  | some code =>
    cases ho : ownRoom s.rooms code with
    | none =>
      refine ⟨by simp [startSucceeded, canStart, boundOwnRoom, hb, ho], fun _ => ?_⟩
      refine ⟨msgHostOnly, Or.inl rfl, ?_⟩
      by_cases hp : code ∈ objectPrototypeKeys <;>
        simp [startGame, hb, getBoundRoom, getRoom, ho, hp]
    | some room =>
      have hg := getRoom_of_own ho
      by_cases hh : room.hostId = sid
      · by_cases hp : room.players = []
        · refine ⟨?_, fun _ => ⟨msgNoPlayers, Or.inr rfl, ?_⟩⟩
          · simp [startSucceeded, canStart, boundOwnRoom, hb, ho, hh, hp, startGame,
              getBoundRoom, hg]
          · simp [startGame, hb, getBoundRoom, hg, hh, hp]
        · have hlen : ¬ room.players.length = 0 := by
            simpa [List.length_eq_zero] using hp
          refine ⟨?_, fun hc => ?_⟩
          · simp [startSucceeded, canStart, boundOwnRoom, hb, ho, hh, hp, hlen, startGame,
              getBoundRoom, hg, ownRoom_setRoom_self]
          · simp [canStart, boundOwnRoom, hb, ho, hh, hp] at hc
      · refine ⟨?_, fun _ => ⟨msgHostOnly, Or.inl rfl, ?_⟩⟩
        · simp [startSucceeded, canStart, boundOwnRoom, hb, ho, hh, startGame,
            getBoundRoom, hg]
        · simp [startGame, hb, getBoundRoom, hg, hh]

theorem startGame_iff_host_and_players_witness :
    (canStart lobbyState "h" = true ∧ startSucceeded lobbyState "h" = true ∧
      startGame lobbyState "h" = Except.ok (startedState,
        [Msg.toRoom "100000" (Payload.gameStarted msgGameStarted [⟨"a", "A", 0⟩])])) ∧
    (canStart lobbyState "a" = false ∧
      ∃ message, (message = msgHostOnly ∨ message = msgNoPlayers) ∧
        startGame lobbyState "a" =
          Except.ok (lobbyState, [Msg.toSocket "a" (Payload.error message)])) :=
  ⟨⟨by decide, (startGame_iff_host_and_players lobbyState "h").1.2 (by decide), by decide⟩,
    by decide, (startGame_iff_host_and_players lobbyState "a").2 (by decide)⟩

/-! ## endGame: the leaderboard -/

theorem sortPlayers_perm (players : List Player) : (sortPlayers players).Perm players :=
  List.perm_insertionSort _ players

theorem sortPlayers_sorted (players : List Player) :
    (sortPlayers players).Pairwise (fun a b => b.score ≤ a.score) := by
  haveI : IsTotal Player (fun a b => compareScore a b ≤ 0) :=
    ⟨fun a b => by simp only [compareScore]; omega⟩
  haveI : IsTrans Player (fun a b => compareScore a b ≤ 0) :=
    ⟨fun a b c hab hbc => by simp only [compareScore] at *; omega⟩
  have h := List.sorted_insertionSort (fun a b : Player => compareScore a b ≤ 0) players
  refine List.Pairwise.imp ?_ h
  intro a b hab
  simp only [compareScore] at hab
  omega

theorem sortPlayers_stable (players : List Player) (v : Int) :
    (sortPlayers players).filter (fun p => p.score = v) =
      players.filter (fun p => p.score = v) := by
  have hpair : (players.filter (fun p => p.score = v)).Pairwise
      (fun a b => compareScore a b ≤ 0) := by
    rw [List.pairwise_iff_forall_sublist]
    intro a b hab
    have ha : a ∈ players.filter (fun p => p.score = v) := hab.subset (by simp)
    have hb : b ∈ players.filter (fun p => p.score = v) := hab.subset (by simp)
    simp only [List.mem_filter, decide_eq_true_eq] at ha hb
    simp only [compareScore]
    omega
  have hsub : List.Sublist (players.filter (fun p => p.score = v)) (sortPlayers players) :=
    List.sublist_insertionSort hpair (List.filter_sublist _)
  have hsub2 := hsub.filter (fun p => decide (p.score = v))
  rw [List.filter_filter] at hsub2
  simp only [Bool.and_self] at hsub2
  have hlen : ((sortPlayers players).filter (fun p => p.score = v)).length =
      (players.filter (fun p => p.score = v)).length :=
    ((sortPlayers_perm players).filter _).length_eq
  exact (hsub2.eq_of_length hlen.symm).symm

/-- C5: when the host of a room sends endGame, the handler runs to completion and
its only message is the gameEnded broadcast to the room; the leaderboard it carries
is a permutation of the room's member list, is sorted by score in non-increasing
order, and members with the same score appear in it in the order they have in the
member list (for each score, the members with that score form the same list; any
two members `a` before `b` with equal scores stay `a` before `b`). -/
theorem endGame_leaderboard (s : State) (sid code : String) (room : Room)
    (hbound : (getSocket s.sockets sid).roomCode = some code)
    (hroom : ownRoom s.rooms code = some room) (hhost : room.hostId = sid) :
    endGame s sid =
      Except.ok (s, [Msg.toRoom code (Payload.gameEnded (sortPlayers room.players))]) ∧
    (sortPlayers room.players).Perm room.players ∧
    (sortPlayers room.players).Pairwise (fun a b => b.score ≤ a.score) ∧
    (∀ v : Int, (sortPlayers room.players).filter (fun p => p.score = v) =
      room.players.filter (fun p => p.score = v)) ∧
    (∀ a b : Player, a.score = b.score → List.Sublist [a, b] room.players →
      List.Sublist [a, b] (sortPlayers room.players)) := by
  refine ⟨?_, sortPlayers_perm _, sortPlayers_sorted _, sortPlayers_stable _, ?_⟩
  · unfold endGame
    simp only [hbound, getBoundRoom, getRoom_of_own hroom]
    simp [hhost]
  · intro a b hab hsub
    exact List.pair_sublist_insertionSort (by simp only [compareScore]; omega) hsub

theorem endGame_leaderboard_witness :
    sortPlayers [⟨"a", "A", 10⟩, ⟨"b", "B", 10⟩, ⟨"c", "C", 5⟩] =
      [⟨"a", "A", 10⟩, ⟨"b", "B", 10⟩, ⟨"c", "C", 5⟩] ∧
    sortPlayers [⟨"c", "C", 5⟩, ⟨"a", "A", 10⟩, ⟨"b", "B", 10⟩] =
      [⟨"a", "A", 10⟩, ⟨"b", "B", 10⟩, ⟨"c", "C", 5⟩] ∧
    endGame leaderboardState "h" =
      Except.ok (leaderboardState, [Msg.toRoom "100000" (Payload.gameEnded
        (sortPlayers [⟨"a", "A", 10⟩, ⟨"b", "B", 10⟩, ⟨"c", "C", 5⟩]))]) :=
  ⟨by decide, by decide,
    (endGame_leaderboard leaderboardState "h" "100000"
      ⟨"h", [⟨"a", "A", 10⟩, ⟨"b", "B", 10⟩, ⟨"c", "C", 5⟩], true, 0⟩
      (by decide) (by decide) rfl).1⟩

/-! ## generateRoomCode -/

theorem getRoom_not_truthy {rooms : List (String × Room)} {code : String}
    (h : (getRoom rooms code).truthy = false) :
    ownRoom rooms code = none ∧ getRoom rooms code = Slot.undef := by
  cases hg : getRoom rooms code with
  | undef =>
    refine ⟨?_, rfl⟩
    cases ho : ownRoom rooms code with
    | none => rfl
    | some r => rw [getRoom_of_own ho] at hg; cases hg
  | inherited => rw [hg] at h; simp [Slot.truthy] at h
  | own r => rw [hg] at h; simp [Slot.truthy] at h

theorem generateRoomCode_some (rooms : List (String × Room)) (draws : List (Fin 900000))
    (code : String) (h : generateRoomCode rooms draws = some code) :
    (∃ d : Fin 900000, code = toString (100000 + d.val)) ∧
      ownRoom rooms code = none ∧ getRoom rooms code = Slot.undef := by
  induction draws with
  | nil => simp [generateRoomCode] at h
  | cons d ds ih =>
    simp only [generateRoomCode] at h
    split at h
    · exact ih h
    · rename_i hfree
      have hc : toString (100000 + d.val) = code := Option.some.inj h
      subst hc
      exact ⟨⟨d, rfl⟩, getRoom_not_truthy (by simpa using hfree)⟩

theorem generateRoomCode_returns (rooms : List (String × Room)) (draws : List (Fin 900000))
    (h : ∃ d ∈ draws, ownRoom rooms (toString (100000 + d.val)) = none) :
    ∃ code, generateRoomCode rooms draws = some code := by
  induction draws with
  | nil => simp at h
  | cons d ds ih =>
    simp only [generateRoomCode]
    split
    · rename_i htaken
      obtain ⟨d', hd', hfree⟩ := h
      rcases List.mem_cons.1 hd' with hd | hd
      · subst hd
        have hnp := roomCode_not_prototypeKey d'
        simp [getRoom, hfree, hnp, Slot.truthy] at htaken
      · exact ih ⟨d', hd, hfree⟩
    · exact ⟨_, rfl⟩

/-- C9: for every store and every sequence of random draws, whenever
generateRoomCode returns a code, the code is the decimal form of an integer in
`[100000, 999999]`, consists of exactly six ASCII digits, and is not a key of the
store (the read `rooms[code]` is undefined); and it does return as soon as one of
the draws is not a key of the store. -/
theorem generateRoomCode_spec (rooms : List (String × Room)) (draws : List (Fin 900000)) :
    (∀ code, generateRoomCode rooms draws = some code →
      (∃ n : Nat, 100000 ≤ n ∧ n ≤ 999999 ∧ code = toString n) ∧
      code.length = 6 ∧ (∀ c ∈ code.data, c.isDigit = true) ∧
      ownRoom rooms code = none ∧ getRoom rooms code = Slot.undef) ∧
    ((∃ d ∈ draws, ownRoom rooms (toString (100000 + d.val)) = none) →
      ∃ code, generateRoomCode rooms draws = some code) := by
  refine ⟨?_, generateRoomCode_returns rooms draws⟩
  intro code h
  obtain ⟨⟨d, hd⟩, hown, hget⟩ := generateRoomCode_some rooms draws code h
  have hlt := d.isLt
  have hsix := roomCode_six_digits (100000 + d.val) (by omega) (by omega)
  subst hd
  exact ⟨⟨100000 + d.val, by omega, by omega, rfl⟩, hsix.1, hsix.2, hown, hget⟩

theorem generateRoomCode_spec_witness :
    generateRoomCode lobbyState.rooms [0, 23456] = some "123456" ∧
    ((∃ n : Nat, 100000 ≤ n ∧ n ≤ 999999 ∧ "123456" = toString n) ∧
      "123456".length = 6 ∧ (∀ c ∈ "123456".data, c.isDigit = true) ∧
      ownRoom lobbyState.rooms "123456" = none ∧
      getRoom lobbyState.rooms "123456" = Slot.undef) :=
  ⟨by decide, (generateRoomCode_spec lobbyState.rooms [0, 23456]).1 "123456" (by decide)⟩

/-! ## disconnect of a player -/

theorem removePlayer_split (players : List Player) (sid : String)
    (h : ∃ m ∈ players, m.id = sid) :
    ∃ pre gone post, players = pre ++ gone :: post ∧ gone.id = sid ∧
      (∀ m ∈ pre, m.id ≠ sid) ∧ removePlayer players sid = pre ++ post := by
  induction players with
  | nil => simp at h
  | cons p rest ih =>
    by_cases hp : p.id = sid
    · exact ⟨[], p, rest, rfl, hp, by simp, by simp [removePlayer, hp]⟩
    · have h' : ∃ m ∈ rest, m.id = sid := by
        obtain ⟨m, hm, hid⟩ := h
        rcases List.mem_cons.1 hm with hm | hm
        · subst hm; exact absurd hid hp
        · exact ⟨m, hm, hid⟩
      obtain ⟨pre, gone, post, hsplit, hid, hpre, hrem⟩ := ih h'
      refine ⟨p :: pre, gone, post, by simp [hsplit], hid, ?_, by simp [removePlayer, hp, hrem]⟩
      intro m hm
      rcases List.mem_cons.1 hm with hm | hm
      · subst hm; exact hp
      · exact hpre m hm

/-- C8: for a connection `p` bound as Player (`isHost` false) to a room of the store
and present in its member list, the disconnect handler runs to completion; the
member list splits as `pre ++ gone :: post` with `gone` the first record of `p`, and
afterwards the room's member list is `pre ++ post` (same records, same order, names
and scores), its `hostId`, `started` and `currentQuestion` are unchanged, every other
room code reads as before, and the only message is the playerList broadcast to the
room carrying `pre ++ post` with count equal to the old length minus 1. -/
theorem disconnect_player (s : State) (p code : String) (room : Room)
    (hbound : (getSocket s.sockets p).roomCode = some code)
    (hrole : (getSocket s.sockets p).isHost = false)
    (hroom : ownRoom s.rooms code = some room)
    (hmember : ∃ m ∈ room.players, m.id = p) :
    ∃ pre gone post s', room.players = pre ++ gone :: post ∧ gone.id = p ∧
      (∀ m ∈ pre, m.id ≠ p) ∧
      disconnect s p = Except.ok (s',
        [Msg.toRoom code (Payload.playerList (pre ++ post) (room.players.length - 1))]) ∧
      ownRoom s'.rooms code =
        some ⟨room.hostId, pre ++ post, room.started, room.currentQuestion⟩ ∧
      (pre ++ post).length = room.players.length - 1 ∧
      (∀ code', code' ≠ code → ownRoom s'.rooms code' = ownRoom s.rooms code') ∧
      s'.sockets = dropSocket s.sockets p := by
  obtain ⟨pre, gone, post, hsplit, hid, hpre, hrem⟩ := removePlayer_split room.players p hmember
  have hany : room.players.any (fun m => decide (m.id = p)) = true := by
    obtain ⟨m, hm, hmid⟩ := hmember
    simp only [List.any_eq_true, decide_eq_true_eq]
    exact ⟨m, hm, hmid⟩
  have hlen : (pre ++ post).length = room.players.length - 1 := by
    rw [hsplit]; simp
  refine ⟨pre, gone, post,
    ⟨setRoom s.rooms code { room with players := pre ++ post }, dropSocket s.sockets p⟩,
    hsplit, hid, hpre, ?_, ownRoom_setRoom_self _ _ _, hlen,
    fun code' hne => ownRoom_setRoom_other _ _ _ _ hne, rfl⟩
  unfold disconnect
  simp only [hbound, getBoundRoom, getRoom_of_own hroom]
  simp [hrole, hany, hrem, hlen]

theorem disconnect_player_witness :
    disconnect threePlayers "b" = Except.ok
      (⟨[("100000", ⟨"h", [⟨"a", "A", 3⟩, ⟨"c", "C", 1⟩], true, 0⟩),
         ("100001", ⟨"g", [], false, 0⟩)], []⟩,
       [Msg.toRoom "100000" (Payload.playerList [⟨"a", "A", 3⟩, ⟨"c", "C", 1⟩] 2)]) ∧
    ∃ pre gone post s',
      [(⟨"a", "A", 3⟩ : Player), ⟨"b", "B", 2⟩, ⟨"c", "C", 1⟩] = pre ++ gone :: post ∧
      gone.id = "b" ∧ (∀ m ∈ pre, m.id ≠ "b") ∧
      disconnect threePlayers "b" = Except.ok (s',
        [Msg.toRoom "100000" (Payload.playerList (pre ++ post) (3 - 1))]) ∧
      ownRoom s'.rooms "100000" = some ⟨"h", pre ++ post, true, 0⟩ ∧
      (pre ++ post).length = 3 - 1 ∧
      (∀ code', code' ≠ "100000" →
        ownRoom s'.rooms code' = ownRoom threePlayers.rooms code') ∧
      s'.sockets = dropSocket threePlayers.sockets "b" :=
  ⟨by decide,
    disconnect_player threePlayers "b" "100000"
      ⟨"h", [⟨"a", "A", 3⟩, ⟨"b", "B", 2⟩, ⟨"c", "C", 1⟩], true, 0⟩
      (by decide) (by decide) (by decide) ⟨⟨"b", "B", 2⟩, by decide, by decide⟩⟩

/-! ## Unique names -/

theorem namesUnique_setRoom {rooms : List (String × Room)} (code : String) (r : Room)
    (h : NamesUnique rooms) (hr : (r.players.map Player.name).Nodup) :
    NamesUnique (setRoom rooms code r) := by
  intro code' room' hroom'
  by_cases hc : code' = code
  · subst hc
    rw [ownRoom_setRoom_self] at hroom'
    cases hroom'
    exact hr
  · rw [ownRoom_setRoom_other _ _ _ _ hc] at hroom'
    exact h code' room' hroom'

theorem namesUnique_deleteRoom {rooms : List (String × Room)} (code : String)
    (h : NamesUnique rooms) : NamesUnique (deleteRoom rooms code) := by
  intro code' room' hroom'
  by_cases hc : code' = code
  · subst hc
    rw [ownRoom_deleteRoom_self] at hroom'
    cases hroom'
  · rw [ownRoom_deleteRoom_other _ _ _ hc] at hroom'
    exact h code' room' hroom'

theorem addScore_names (players : List Player) (sid : String) (points : Int) :
    (addScore players sid points).map Player.name = players.map Player.name := by
  induction players with
  | nil => rfl
  | cons p rest ih =>
    by_cases hp : p.id = sid
    · simp [addScore, hp]
    · simp [addScore, hp, ih]

theorem removePlayer_sublist (players : List Player) (sid : String) :
    List.Sublist (removePlayer players sid) players := by
  induction players with
  | nil => simp [removePlayer]
  | cons p rest ih =>
    by_cases hp : p.id = sid
    · simp [removePlayer, hp]
    · simpa [removePlayer, hp] using ih

theorem createGame_update {s s' : State} {sid : String} {draws : List (Fin 900000)}
    {out : List Msg} (h : createGame s sid draws = Except.ok (s', out)) :
    StoreUpdate sid s.rooms s'.rooms (Event.createGame draws) := by
  unfold createGame at h
  cases hgen : generateRoomCode s.rooms draws with
  | none => simp [hgen] at h
  | some code =>
    simp only [hgen, Except.ok.injEq, Prod.mk.injEq] at h
    obtain ⟨rfl, -⟩ := h
    exact StoreUpdate.created draws code hgen rfl

theorem joinGame_update {s s' : State} {sid roomCode playerName : String}
    {out : List Msg} (h : joinGame s sid roomCode playerName = Except.ok (s', out)) :
    StoreUpdate sid s.rooms s'.rooms (Event.joinGame roomCode playerName) := by
  unfold joinGame at h
  cases hg : getRoom s.rooms roomCode with
  | undef =>
    simp only [hg, Except.ok.injEq, Prod.mk.injEq] at h
    obtain ⟨rfl, -⟩ := h
    exact StoreUpdate.same _ rfl
  | inherited => simp [hg] at h
  | own room =>
    simp only [hg] at h
    split_ifs at h with hst hex
    · simp only [Except.ok.injEq, Prod.mk.injEq] at h
      obtain ⟨rfl, -⟩ := h
      exact StoreUpdate.same _ rfl
    · simp only [Except.ok.injEq, Prod.mk.injEq] at h
      obtain ⟨rfl, -⟩ := h
      exact StoreUpdate.same _ rfl
    · simp only [Except.ok.injEq, Prod.mk.injEq] at h
      obtain ⟨rfl, -⟩ := h
      exact StoreUpdate.joined roomCode playerName room (getRoom_eq_own hg)
        (by simpa using hst) (by simpa using hex) rfl

theorem startGame_update {s s' : State} {sid : String} {out : List Msg}
    (h : startGame s sid = Except.ok (s', out)) :
    StoreUpdate sid s.rooms s'.rooms Event.startGame ∧ s'.sockets = s.sockets := by
  unfold startGame at h
  cases hb : (getSocket s.sockets sid).roomCode with
  | none =>
    simp only [hb, getBoundRoom, Except.ok.injEq, Prod.mk.injEq] at h
    obtain ⟨rfl, -⟩ := h
    exact ⟨StoreUpdate.same _ rfl, rfl⟩
  | some code =>
    cases hg : getRoom s.rooms code with
    | undef =>
      simp only [hb, getBoundRoom, hg, Except.ok.injEq, Prod.mk.injEq] at h
      obtain ⟨rfl, -⟩ := h
      exact ⟨StoreUpdate.same _ rfl, rfl⟩
    | inherited =>
      simp only [hb, getBoundRoom, hg, Except.ok.injEq, Prod.mk.injEq] at h
      obtain ⟨rfl, -⟩ := h
      exact ⟨StoreUpdate.same _ rfl, rfl⟩
    | own room =>
      simp only [hb, getBoundRoom, hg] at h
      split_ifs at h with hh hp
      · simp only [Except.ok.injEq, Prod.mk.injEq] at h
        obtain ⟨rfl, -⟩ := h
        exact ⟨StoreUpdate.same _ rfl, rfl⟩
      · simp only [Except.ok.injEq, Prod.mk.injEq] at h
        obtain ⟨rfl, -⟩ := h
        exact ⟨StoreUpdate.same _ rfl, rfl⟩
      · simp only [Except.ok.injEq, Prod.mk.injEq] at h
        obtain ⟨rfl, -⟩ := h
        exact ⟨StoreUpdate.started code room (getRoom_eq_own hg) (by simpa using hh) rfl, rfl⟩

theorem submitAnswer_update {s s' : State} {sid : String} {q points : Int}
    {out : List Msg} (h : submitAnswer s sid q points = Except.ok (s', out)) :
    StoreUpdate sid s.rooms s'.rooms (Event.submitAnswer q points) ∧
      s'.sockets = s.sockets := by
  unfold submitAnswer at h
  cases hb : (getSocket s.sockets sid).roomCode with
  | none =>
    simp only [hb, getBoundRoom, Except.ok.injEq, Prod.mk.injEq] at h
    obtain ⟨rfl, -⟩ := h
    exact ⟨StoreUpdate.same _ rfl, rfl⟩
  | some code =>
    cases hg : getRoom s.rooms code with
    | undef =>
      simp only [hb, getBoundRoom, hg, Except.ok.injEq, Prod.mk.injEq] at h
      obtain ⟨rfl, -⟩ := h
      exact ⟨StoreUpdate.same _ rfl, rfl⟩
    | inherited => simp [hb, getBoundRoom, hg] at h
    | own room =>
      simp only [hb, getBoundRoom, hg] at h
      cases hf : room.players.find? (fun p => decide (p.id = sid)) with
      | none =>
        simp only [hf, Except.ok.injEq, Prod.mk.injEq] at h
        obtain ⟨rfl, -⟩ := h
        exact ⟨StoreUpdate.same _ rfl, rfl⟩
      | some player =>
        simp only [hf, Except.ok.injEq, Prod.mk.injEq] at h
        obtain ⟨rfl, -⟩ := h
        exact ⟨StoreUpdate.scored code room q points (getRoom_eq_own hg) rfl, rfl⟩

theorem endGame_state {s s' : State} {sid : String} {out : List Msg}
    (h : endGame s sid = Except.ok (s', out)) : s' = s := by
  unfold endGame at h
  cases hb : (getSocket s.sockets sid).roomCode with
  | none =>
    simp only [hb, getBoundRoom, Except.ok.injEq, Prod.mk.injEq] at h
    exact h.1.symm
  | some code =>
    cases hg : getRoom s.rooms code with
    | undef =>
      simp only [hb, getBoundRoom, hg, Except.ok.injEq, Prod.mk.injEq] at h
      exact h.1.symm
    | inherited =>
      simp only [hb, getBoundRoom, hg, Except.ok.injEq, Prod.mk.injEq] at h
      exact h.1.symm
    | own room =>
      simp only [hb, getBoundRoom, hg] at h
      split_ifs at h <;>
      · simp only [Except.ok.injEq, Prod.mk.injEq] at h
        exact h.1.symm

theorem disconnect_update {s s' : State} {sid : String} {out : List Msg}
    (h : disconnect s sid = Except.ok (s', out)) :
    StoreUpdate sid s.rooms s'.rooms Event.disconnect ∧
      s'.sockets = dropSocket s.sockets sid := by
  unfold disconnect at h
  cases hb : (getSocket s.sockets sid).roomCode with
  | none =>
    simp only [hb, getBoundRoom, Except.ok.injEq, Prod.mk.injEq] at h
    obtain ⟨rfl, -⟩ := h
    exact ⟨StoreUpdate.same _ rfl, rfl⟩
  | some code =>
    cases hg : getRoom s.rooms code with
    | undef =>
      simp only [hb, getBoundRoom, hg, Except.ok.injEq, Prod.mk.injEq] at h
      obtain ⟨rfl, -⟩ := h
      exact ⟨StoreUpdate.same _ rfl, rfl⟩
    | inherited =>
      simp only [hb, getBoundRoom, hg] at h
      split_ifs at h
      · simp only [Except.ok.injEq, Prod.mk.injEq] at h
        obtain ⟨rfl, -⟩ := h
        exact ⟨StoreUpdate.deleted code rfl, rfl⟩
    | own room =>
      simp only [hb, getBoundRoom, hg] at h
      split_ifs at h
      · simp only [Except.ok.injEq, Prod.mk.injEq] at h
        obtain ⟨rfl, -⟩ := h
        exact ⟨StoreUpdate.deleted code rfl, rfl⟩
      · simp only [Except.ok.injEq, Prod.mk.injEq] at h
        obtain ⟨rfl, -⟩ := h
        exact ⟨StoreUpdate.left code room (getRoom_eq_own hg) rfl, rfl⟩
      · simp only [Except.ok.injEq, Prod.mk.injEq] at h
        obtain ⟨rfl, -⟩ := h
        exact ⟨StoreUpdate.same _ rfl, rfl⟩

theorem step_update {s s' : State} {sid : String} {ev : Event} {out : List Msg}
    (h : step s sid ev = Except.ok (s', out)) : StoreUpdate sid s.rooms s'.rooms ev := by
  cases ev with
  | createGame draws => exact createGame_update h
  | joinGame roomCode playerName => exact joinGame_update h
  | startGame => exact (startGame_update h).1
  | submitAnswer q points => exact (submitAnswer_update h).1
  | endGame => exact StoreUpdate.same _ (by rw [endGame_state h])
  | disconnect => exact (disconnect_update h).1

theorem step_namesUnique {s s' : State} {sid : String} {ev : Event} {out : List Msg}
    (h : step s sid ev = Except.ok (s', out)) (hu : NamesUnique s.rooms) :
    NamesUnique s'.rooms := by
  have hupd := step_update h
  cases hupd with
  | same ev he => rw [he]; exact hu
  | created draws code hgen he =>
    rw [he]
    exact namesUnique_setRoom _ _ hu (by simp)
  | joined code playerName room hroom hst hex he =>
    rw [he]
    refine namesUnique_setRoom _ _ hu ?_
    have hold := hu code room hroom
    have hnew : ∀ m ∈ room.players, ¬ m.name = playerName := by
      simpa [nameExists] using hex
    simp only [List.map_append, List.map_cons, List.map_nil]
    refine List.Nodup.append hold (by simp) ?_
    intro x hx hx'
    simp only [List.mem_singleton] at hx'
    subst hx'
    obtain ⟨m, hm, hmn⟩ := List.mem_map.1 hx
    exact hnew m hm hmn
  | started code room hroom hh he =>
    rw [he]
    exact namesUnique_setRoom _ _ hu (hu code room hroom)
  | scored code room q points hroom he =>
    rw [he]
    refine namesUnique_setRoom _ _ hu ?_
    rw [addScore_names]
    exact hu code room hroom
  | deleted code he =>
    rw [he]
    exact namesUnique_deleteRoom _ hu
  | left code room hroom he =>
    rw [he]
    refine namesUnique_setRoom _ _ hu ?_
    exact List.Nodup.sublist ((removePlayer_sublist _ _).map _) (hu code room hroom)

theorem run_reachable (evs : List (String × Event)) : ∀ {s s' : State},
    Reachable s → run s evs = Except.ok s' → Reachable s' := by
  induction evs with
  | nil =>
    intro s s' hs h
    simp only [run, Except.ok.injEq] at h
    exact h ▸ hs
  | cons e rest ih =>
    intro s s' hs h
    obtain ⟨sid, ev⟩ := e
    simp only [run] at h
    cases hstep : step s sid ev with
    | error f => simp [hstep] at h
    | ok r =>
      obtain ⟨s1, out⟩ := r
      simp only [hstep] at h
      exact ih (Reachable.step sid ev hs hstep) h

/-- C10: in every state reachable from the empty store by any sequence of events,
the names of the members of each room of the store are pairwise distinct. -/
theorem reachable_names_unique (s : State) (hreach : Reachable s) (code : String)
    (room : Room) (hroom : ownRoom s.rooms code = some room) :
    (room.players.map Player.name).Nodup := by
  have hall : NamesUnique s.rooms := by
    clear hroom
    induction hreach with
    | init => intro code room h; simp [State.empty, ownRoom] at h
    | step sid ev _ hstep ih => exact step_namesUnique hstep ih
  exact hall code room hroom

theorem lobbyState_reachable : Reachable lobbyState :=
  run_reachable lobbyTrace Reachable.init (by decide)

theorem twoPlayersState_reachable : Reachable twoPlayersState :=
  run_reachable twoPlayersTrace Reachable.init (by decide)

theorem reachable_names_unique_witness :
    Reachable twoPlayersState ∧
    ownRoom twoPlayersState.rooms "100000" =
      some ⟨"h", [⟨"a", "A", 0⟩, ⟨"b", "B", 0⟩], false, 0⟩ ∧
    (Room.mk "h" [⟨"a", "A", 0⟩, ⟨"b", "B", 0⟩] false 0).players.map Player.name =
      ["A", "B"] ∧
    ((Room.mk "h" [⟨"a", "A", 0⟩, ⟨"b", "B", 0⟩] false 0).players.map Player.name).Nodup ∧
    step twoPlayersState "c" (Event.joinGame "100000" "B") =
      Except.ok (twoPlayersState, [Msg.toSocket "c" (Payload.error msgNameTaken)]) :=
  ⟨twoPlayersState_reachable, by decide, rfl,
    reachable_names_unique twoPlayersState twoPlayersState_reachable "100000"
      ⟨"h", [⟨"a", "A", 0⟩, ⟨"b", "B", 0⟩], false, 0⟩ (by decide),
    by decide⟩

/-! ## disconnect of the host -/

theorem update_keeps_absent {sid : String} {rooms rooms' : List (String × Room)} {ev : Event}
    (hupd : StoreUpdate sid rooms rooms' ev) (hev : ev.isCreateGame = false) (code : String)
    (habsent : ownRoom rooms code = none) : ownRoom rooms' code = none := by
  have hset : ∀ (code0 : String) (r0 r : Room), ownRoom rooms code0 = some r0 →
      ownRoom (setRoom rooms code0 r) code = none := by
    intro code0 r0 r h0
    have hne : code ≠ code0 := by
      rintro rfl
      rw [h0] at habsent
      cases habsent
    rw [ownRoom_setRoom_other _ _ _ _ hne]
    exact habsent
  cases hupd with
  | same ev he => rw [he]; exact habsent
  | created draws code0 hgen he => simp [Event.isCreateGame] at hev
  | joined code0 playerName room hroom hst hex he => rw [he]; exact hset _ room _ hroom
  | started code0 room hroom hh he => rw [he]; exact hset _ room _ hroom
  | scored code0 room q points hroom he => rw [he]; exact hset _ room _ hroom
  | deleted code0 he =>
    rw [he]
    by_cases hc : code = code0
    · rw [hc]; exact ownRoom_deleteRoom_self _ _
    · rw [ownRoom_deleteRoom_other _ _ _ hc]; exact habsent
  | left code0 room hroom he => rw [he]; exact hset _ room _ hroom

theorem run_keeps_absent (code : String) (evs : List (String × Event)) : ∀ {s s' : State},
    (∀ e ∈ evs, e.2.isCreateGame = false) → run s evs = Except.ok s' →
    ownRoom s.rooms code = none → ownRoom s'.rooms code = none := by
  induction evs with
  | nil =>
    intro s s' _ h habsent
    simp only [run, Except.ok.injEq] at h
    exact h ▸ habsent
  | cons e rest ih =>
    intro s s' hevs h habsent
    obtain ⟨sid, ev⟩ := e
    simp only [run] at h
    cases hstep : step s sid ev with
    | error f => simp [hstep] at h
    | ok r =>
      obtain ⟨s1, out⟩ := r
      simp only [hstep] at h
      have hev : ev.isCreateGame = false := hevs (sid, ev) (List.mem_cons_self _ _)
      exact ih (fun e he => hevs e (List.mem_cons_of_mem _ he)) h
        (update_keeps_absent (step_update hstep) hev code habsent)

/-- C7: let connection `h` be bound with role Host (`isHost` true) to a room code
produced by generateRoomCode, under which the store holds a room with any member
list.  Then the disconnect handler of `h` runs to completion, its only message is
the hostDisconnected broadcast to that room, and afterwards the code is absent from
the store; and after any further events that run to completion and include no
createGame, every joinGame with that code, by any connection under any name, leaves
the state unchanged and emits exactly the room-not-found error to the caller. -/
theorem host_disconnect_destroys_room (s : State) (h code : String) (room : Room)
    (d : Fin 900000) (hcode : code = toString (100000 + d.val))
    (hbound : (getSocket s.sockets h).roomCode = some code)
    (hrole : (getSocket s.sockets h).isHost = true)
    (hroom : ownRoom s.rooms code = some room) :
    ∃ s', disconnect s h =
        Except.ok (s', [Msg.toRoom code (Payload.hostDisconnected msgHostLeft)]) ∧
      ownRoom s'.rooms code = none ∧
      ∀ (evs : List (String × Event)) (s'' : State),
        (∀ e ∈ evs, e.2.isCreateGame = false) → run s' evs = Except.ok s'' →
        ∀ sid playerName : String, joinGame s'' sid code playerName =
          Except.ok (s'', [Msg.toSocket sid (Payload.error msgRoomNotFound)]) := by
  refine ⟨⟨deleteRoom s.rooms code, dropSocket s.sockets h⟩, ?_,
    ownRoom_deleteRoom_self _ _, ?_⟩
  · unfold disconnect
    simp only [hbound, getBoundRoom, getRoom_of_own hroom]
    simp [hrole]
  · intro evs s'' hevs hrun sid playerName
    have habsent : ownRoom s''.rooms code = none :=
      run_keeps_absent code evs hevs hrun (ownRoom_deleteRoom_self _ _)
    have hproto : code ∉ objectPrototypeKeys := hcode ▸ roomCode_not_prototypeKey d
    unfold joinGame
    simp [getRoom, habsent, hproto]

theorem host_disconnect_destroys_room_witness :
    disconnect lobbyState "h" = Except.ok
      (⟨[], [("a", ⟨some "100000", false, some "A", ["100000"]⟩)]⟩,
       [Msg.toRoom "100000" (Payload.hostDisconnected msgHostLeft)]) ∧
    ∃ s', disconnect lobbyState "h" =
        Except.ok (s', [Msg.toRoom "100000" (Payload.hostDisconnected msgHostLeft)]) ∧
      ownRoom s'.rooms "100000" = none ∧
      ∀ (evs : List (String × Event)) (s'' : State),
        (∀ e ∈ evs, e.2.isCreateGame = false) → run s' evs = Except.ok s'' →
        ∀ sid playerName : String, joinGame s'' sid "100000" playerName =
          Except.ok (s'', [Msg.toSocket sid (Payload.error msgRoomNotFound)]) :=
  ⟨by decide,
    host_disconnect_destroys_room lobbyState "h" "100000" ⟨"h", [⟨"a", "A", 0⟩], false, 0⟩
      0 (by decide) (by decide) (by decide) (by decide)⟩

/-! ## joinGame with a key of `Object.prototype` -/

/-- C14 at its failing input: on the empty store the room code `constructor` is not
a key of the store, and joinGame with it stops with a `TypeError` instead of
emitting the room-not-found error; no message is emitted.  For every room code that
is neither a key of the store nor the name of a member of `Object.prototype`,
joinGame leaves the state unchanged and emits exactly the room-not-found error to
the caller. -/
theorem joinGame_prototype_key_throws :
    ownRoom State.empty.rooms "constructor" = none ∧
    joinGame State.empty "c" "constructor" "x" = Except.error Fault.typeError ∧
    (∀ (s : State) (sid roomCode playerName : String),
      ownRoom s.rooms roomCode = none → roomCode ∉ objectPrototypeKeys →
      joinGame s sid roomCode playerName =
        Except.ok (s, [Msg.toSocket sid (Payload.error msgRoomNotFound)])) := by
  refine ⟨by decide, by decide, ?_⟩
  intro s sid roomCode playerName hown hproto
  unfold joinGame
  simp [getRoom, hown, hproto]

/-! ## endGame: frame -/

/-- C17: for every state in which the caller is bound to a room of the store whose
`hostId` is the caller's id, endGame runs to completion and leaves the whole state
unchanged: the room is still present under its code with the same record (member
list in join order, `hostId`, `started`); the only message is the gameEnded
broadcast, which carries the sorted copy. -/
theorem endGame_keeps_session (s : State) (sid code : String) (room : Room)
    (hbound : (getSocket s.sockets sid).roomCode = some code)
    (hroom : ownRoom s.rooms code = some room) (hhost : room.hostId = sid) :
    ∃ s' out, endGame s sid = Except.ok (s', out) ∧ s' = s ∧
      s'.rooms = s.rooms ∧ ownRoom s'.rooms code = some room ∧
      out = [Msg.toRoom code (Payload.gameEnded (sortPlayers room.players))] := by
  refine ⟨s, _, ?_, rfl, rfl, hroom, rfl⟩
  unfold endGame
  simp only [hbound, getBoundRoom, getRoom_of_own hroom]
  simp [hhost]

theorem endGame_keeps_session_witness :
    ∃ s' out, endGame leaderboardState "h" = Except.ok (s', out) ∧ s' = leaderboardState ∧
      s'.rooms = leaderboardState.rooms ∧
      ownRoom s'.rooms "100000" =
        some ⟨"h", [⟨"a", "A", 10⟩, ⟨"b", "B", 10⟩, ⟨"c", "C", 5⟩], true, 0⟩ ∧
      out = [Msg.toRoom "100000" (Payload.gameEnded (sortPlayers
        (Room.mk "h" [⟨"a", "A", 10⟩, ⟨"b", "B", 10⟩, ⟨"c", "C", 5⟩] true 0).players))] :=
  endGame_keeps_session leaderboardState "h" "100000"
    ⟨"h", [⟨"a", "A", 10⟩, ⟨"b", "B", 10⟩, ⟨"c", "C", 5⟩], true, 0⟩
    (by decide) (by decide) rfl

/-- C18: for every state and every connection that has no bound room, whose bound
room is not in the store, or whose id differs from the `hostId` of its bound room,
endGame runs to completion, emits no message and leaves the state (store and all
socket fields) unchanged. -/
theorem endGame_host_only (s : State) (sid : String)
    (hnot : ∀ code room, (getSocket s.sockets sid).roomCode = some code →
      ownRoom s.rooms code = some room → room.hostId ≠ sid) :
    endGame s sid = Except.ok (s, []) := by
  unfold endGame
  cases hb : (getSocket s.sockets sid).roomCode with
  | none => simp [getBoundRoom]
  | some code =>
    cases hg : getRoom s.rooms code with
    | undef => simp [getBoundRoom, hg]
    | inherited => simp [getBoundRoom, hg]
    | own room =>
      have hne := hnot code room hb (getRoom_eq_own hg)
      simp [getBoundRoom, hg, hne]

theorem endGame_host_only_witness :
    endGame lobbyState "a" = Except.ok (lobbyState, []) ∧
    endGame lobbyState "z" = Except.ok (lobbyState, []) :=
  ⟨endGame_host_only lobbyState "a" (by
      intro code room hb hr
      have hc : (getSocket lobbyState.sockets "a").roomCode = some "100000" := by decide
      rw [hc] at hb
      cases hb
      have hr0 : ownRoom lobbyState.rooms "100000" =
          some ⟨"h", [⟨"a", "A", 0⟩], false, 0⟩ := by decide
      rw [hr0] at hr
      cases hr
      decide),
    by decide⟩

/-! ## The phase never goes backwards -/

/-- C19: for every state and every single event that runs to completion, a room
that is in the store under the same code before and after the event has the same
`hostId` after as before, and if it had `started = true` before it has
`started = true` after. -/
theorem step_keeps_host_and_started (s s' : State) (sid : String) (ev : Event)
    (out : List Msg) (hstep : step s sid ev = Except.ok (s', out))
    (code : String) (room room' : Room)
    (hbefore : ownRoom s.rooms code = some room)
    (hafter : ownRoom s'.rooms code = some room') :
    room'.hostId = room.hostId ∧ (room.started = true → room'.started = true) := by
  have hset : ∀ (code0 : String) (r0 r : Room), ownRoom s.rooms code0 = some r0 →
      s'.rooms = setRoom s.rooms code0 r → r.hostId = r0.hostId →
      (r0.started = true → r.started = true) →
      room'.hostId = room.hostId ∧ (room.started = true → room'.started = true) := by
    intro code0 r0 r h0 he hh hs
    rw [he] at hafter
    by_cases hc : code = code0
    · subst hc
      rw [ownRoom_setRoom_self] at hafter
      rw [h0] at hbefore
      cases hafter
      cases hbefore
      exact ⟨hh, hs⟩
    · rw [ownRoom_setRoom_other _ _ _ _ hc, hbefore] at hafter
      cases hafter
      exact ⟨rfl, id⟩
  have hupd := step_update hstep
  cases hupd with
  | same ev he =>
    rw [he, hbefore] at hafter
    cases hafter
    exact ⟨rfl, id⟩
  | created draws code0 hgen he =>
    have hfree := (generateRoomCode_some _ _ _ hgen).2.1
    have hc : code ≠ code0 := by
      rintro rfl
      rw [hfree] at hbefore
      cases hbefore
    rw [he, ownRoom_setRoom_other _ _ _ _ hc, hbefore] at hafter
    cases hafter
    exact ⟨rfl, id⟩
  | joined code0 playerName r0 hroom hst hex he => exact hset code0 r0 _ hroom he rfl id
  | started code0 r0 hroom hh he => exact hset code0 r0 _ hroom he rfl (fun _ => rfl)
  | scored code0 r0 q points hroom he => exact hset code0 r0 _ hroom he rfl id
  | deleted code0 he =>
    rw [he] at hafter
    by_cases hc : code = code0
    · subst hc
      rw [ownRoom_deleteRoom_self] at hafter
      cases hafter
    · rw [ownRoom_deleteRoom_other _ _ _ hc, hbefore] at hafter
      cases hafter
      exact ⟨rfl, id⟩
  | left code0 r0 hroom he => exact hset code0 r0 _ hroom he rfl id

theorem step_keeps_host_and_started_witness :
    step startedState "a" Event.disconnect = Except.ok
      (⟨[("100000", ⟨"h", [], true, 0⟩)],
        [("h", ⟨some "100000", true, none, ["100000"]⟩)]⟩,
       [Msg.toRoom "100000" (Payload.playerList [] 0)]) ∧
    ((Room.mk "h" [] true 0).hostId = (Room.mk "h" [⟨"a", "A", 0⟩] true 0).hostId ∧
      ((Room.mk "h" [⟨"a", "A", 0⟩] true 0).started = true →
        (Room.mk "h" [] true 0).started = true)) :=
  ⟨by decide,
    step_keeps_host_and_started startedState
      ⟨[("100000", ⟨"h", [], true, 0⟩)], [("h", ⟨some "100000", true, none, ["100000"]⟩)]⟩
      "a" Event.disconnect [Msg.toRoom "100000" (Payload.playerList [] 0)] (by decide)
      "100000" ⟨"h", [⟨"a", "A", 0⟩], true, 0⟩ ⟨"h", [], true, 0⟩ (by decide) (by decide)⟩

/-! ## Socket objects: reads after writes -/

theorem getSocket_setSocket_self (sockets : List (String × Socket)) (sid : String)
    (b : Socket) : getSocket (setSocket sockets sid b) sid = b := by
  induction sockets with
  | nil => simp [setSocket, getSocket, ownSocket]
  | cons e rest ih =>
    obtain ⟨k, b0⟩ := e
    by_cases hk : k = sid
    · simp [setSocket, getSocket, ownSocket, hk]
    · simpa [setSocket, getSocket, ownSocket, hk] using ih

theorem getSocket_setSocket_other (sockets : List (String × Socket)) (sid sid' : String)
    (b : Socket) (hne : sid' ≠ sid) :
    getSocket (setSocket sockets sid b) sid' = getSocket sockets sid' := by
  induction sockets with
  | nil => simp [setSocket, getSocket, ownSocket, Ne.symm hne]
  | cons e rest ih =>
    obtain ⟨k, b0⟩ := e
    by_cases hk : k = sid
    · subst hk
      simp [setSocket, getSocket, ownSocket, Ne.symm hne]
    · by_cases hk' : k = sid'
      · subst hk'
        simp [setSocket, getSocket, ownSocket, hk]
      · simpa [setSocket, getSocket, ownSocket, hk, hk'] using ih

theorem getSocket_dropSocket_self (sockets : List (String × Socket)) (sid : String) :
    getSocket (dropSocket sockets sid) sid = Socket.fresh := by
  induction sockets with
  | nil => simp [dropSocket, getSocket, ownSocket]
  | cons e rest ih =>
    obtain ⟨k, b0⟩ := e
    by_cases hk : k = sid
    · simpa [dropSocket, hk] using ih
    · simpa [dropSocket, getSocket, ownSocket, hk] using ih

theorem getSocket_dropSocket_other (sockets : List (String × Socket)) (sid sid' : String)
    (hne : sid' ≠ sid) : getSocket (dropSocket sockets sid) sid' = getSocket sockets sid' := by
  induction sockets with
  | nil => simp [dropSocket, getSocket, ownSocket]
  | cons e rest ih =>
    obtain ⟨k, b0⟩ := e
    by_cases hk : k = sid
    · subst hk
      simpa [dropSocket, getSocket, ownSocket, Ne.symm hne] using ih
    · by_cases hk' : k = sid'
      · subst hk'
        simp [dropSocket, getSocket, ownSocket, hk]
      · simpa [dropSocket, getSocket, ownSocket, hk, hk'] using ih

/-! ## What createGame and joinGame return -/

theorem createGame_ok {s s' : State} {sid : String} {draws : List (Fin 900000)}
    {out : List Msg} (h : createGame s sid draws = Except.ok (s', out)) :
    ∃ code, generateRoomCode s.rooms draws = some code ∧
      s'.rooms = setRoom s.rooms code ⟨sid, [], false, 0⟩ ∧
      s'.sockets = setSocket s.sockets sid
        { (getSocket s.sockets sid).join code with roomCode := some code, isHost := true } ∧
      out = [Msg.toSocket sid (Payload.gameCreated code)] := by
  unfold createGame at h
  cases hgen : generateRoomCode s.rooms draws with
  | none => simp [hgen] at h
  | some code =>
    simp only [hgen, Except.ok.injEq, Prod.mk.injEq] at h
    obtain ⟨rfl, rfl⟩ := h
    exact ⟨code, rfl, rfl, rfl, rfl⟩

theorem joinGame_ok {s s' : State} {sid roomCode playerName : String} {out : List Msg}
    (h : joinGame s sid roomCode playerName = Except.ok (s', out)) :
    s' = s ∨ ∃ room, ownRoom s.rooms roomCode = some room ∧
      s'.sockets = setSocket s.sockets sid
        { (getSocket s.sockets sid).join roomCode with
          roomCode := some roomCode, playerName := some playerName, isHost := false } := by
  unfold joinGame at h
  cases hg : getRoom s.rooms roomCode with
  | undef =>
    simp only [hg, Except.ok.injEq, Prod.mk.injEq] at h
    exact Or.inl h.1.symm
  | inherited => simp [hg] at h
  | own room =>
    simp only [hg] at h
    split_ifs at h
    · simp only [Except.ok.injEq, Prod.mk.injEq] at h
      exact Or.inl h.1.symm
    · simp only [Except.ok.injEq, Prod.mk.injEq] at h
      exact Or.inl h.1.symm
    · simp only [Except.ok.injEq, Prod.mk.injEq] at h
      obtain ⟨rfl, -⟩ := h
      exact Or.inr ⟨room, getRoom_eq_own hg, rfl⟩

theorem setRoom_absent (rooms : List (String × Room)) (code : String) (r : Room)
    (h : ownRoom rooms code = none) : setRoom rooms code r = rooms ++ [(code, r)] := by
  induction rooms with
  | nil => rfl
  | cons e rest ih =>
    obtain ⟨k, r0⟩ := e
    by_cases hk : k = code
    · simp [ownRoom, hk] at h
    · simp only [ownRoom, hk, if_false] at h
      simp [setRoom, hk, ih h]

/-! ## createGame -/

/-- C15: for every store and connection `c`, createGame returns as soon as one of the
random draws is not a key of the store; and whenever it returns, the only message is
gameCreated to `c` with a code that was not a key before, the store is the old one
with one more entry, that code mapped to the room with `hostId = c`, no members and
`started = false`, every other code reads as before, the socket of `c` has that code
as `roomCode` and `isHost` true, and every other socket is unchanged. -/
theorem createGame_spec (s : State) (c : String) (draws : List (Fin 900000)) :
    ((∃ d ∈ draws, ownRoom s.rooms (toString (100000 + d.val)) = none) →
      ∃ s' out, createGame s c draws = Except.ok (s', out)) ∧
    (∀ s' out, createGame s c draws = Except.ok (s', out) →
      ∃ code, out = [Msg.toSocket c (Payload.gameCreated code)] ∧
        ownRoom s.rooms code = none ∧
        s'.rooms = s.rooms ++ [(code, ⟨c, [], false, 0⟩)] ∧
        ownRoom s'.rooms code = some ⟨c, [], false, 0⟩ ∧
        (∀ code', code' ≠ code → ownRoom s'.rooms code' = ownRoom s.rooms code') ∧
        (getSocket s'.sockets c).roomCode = some code ∧
        (getSocket s'.sockets c).isHost = true ∧
        (∀ c', c' ≠ c → getSocket s'.sockets c' = getSocket s.sockets c')) := by
  constructor
  · intro hfree
    obtain ⟨code, hgen⟩ := generateRoomCode_returns s.rooms draws hfree
    refine ⟨⟨setRoom s.rooms code ⟨c, [], false, 0⟩, setSocket s.sockets c
      { (getSocket s.sockets c).join code with roomCode := some code, isHost := true }⟩,
      [Msg.toSocket c (Payload.gameCreated code)], ?_⟩
    simp [createGame, hgen]
  · intro s' out h
    obtain ⟨code, hgen, hrooms, hsockets, hout⟩ := createGame_ok h
    have habsent := (generateRoomCode_some _ _ _ hgen).2.1
    refine ⟨code, hout, habsent, ?_, ?_, ?_, ?_, ?_, ?_⟩
    · rw [hrooms, setRoom_absent _ _ _ habsent]
    · rw [hrooms, ownRoom_setRoom_self]
    · intro code' hne
      rw [hrooms, ownRoom_setRoom_other _ _ _ _ hne]
    · rw [hsockets, getSocket_setSocket_self]
    · rw [hsockets, getSocket_setSocket_self]
    · intro c' hne
      rw [hsockets, getSocket_setSocket_other _ _ _ _ hne]

theorem createGame_spec_witness :
    createGame lobbyState "g" [0, 23456] = Except.ok
      (⟨[("100000", ⟨"h", [⟨"a", "A", 0⟩], false, 0⟩), ("123456", ⟨"g", [], false, 0⟩)],
        [("h", ⟨some "100000", true, none, ["100000"]⟩),
         ("a", ⟨some "100000", false, some "A", ["100000"]⟩),
         ("g", ⟨some "123456", true, none, ["123456"]⟩)]⟩,
       [Msg.toSocket "g" (Payload.gameCreated "123456")]) ∧
    ∃ s' out, createGame lobbyState "g" [0, 23456] = Except.ok (s', out) :=
  ⟨by decide,
    (createGame_spec lobbyState "g" [0, 23456]).1 ⟨23456, by decide, by decide⟩⟩

/-! ## submitAnswer -/

theorem addScore_split (players : List Player) (sid : String) (points : Int)
    (h : ∃ m ∈ players, m.id = sid) :
    ∃ pre hit post, players = pre ++ hit :: post ∧ hit.id = sid ∧
      (∀ m ∈ pre, m.id ≠ sid) ∧
      players.find? (fun p => decide (p.id = sid)) = some hit ∧
      addScore players sid points =
        pre ++ ⟨hit.id, hit.name, jsAdd hit.score points⟩ :: post := by
  induction players with
  | nil => simp at h
  | cons p rest ih =>
    by_cases hp : p.id = sid
    · exact ⟨[], p, rest, rfl, hp, by simp, by simp [List.find?, hp], by simp [addScore, hp]⟩
    · have h' : ∃ m ∈ rest, m.id = sid := by
        obtain ⟨m, hm, hid⟩ := h
        rcases List.mem_cons.1 hm with hm | hm
        · subst hm; exact absurd hid hp
        · exact ⟨m, hm, hid⟩
      obtain ⟨pre, hit, post, hsplit, hid, hpre, hfind, hadd⟩ := ih h'
      refine ⟨p :: pre, hit, post, by simp [hsplit], hid, ?_, by simp [List.find?, hp, hfind],
        by simp [addScore, hp, hadd]⟩
      intro m hm
      rcases List.mem_cons.1 hm with hm | hm
      · subst hm; exact hp
      · exact hpre m hm

theorem roundDouble_safe (n : Int) (h : n.natAbs < 2 ^ 53) : roundDouble n = n := by
  unfold roundDouble
  exact if_pos h

theorem jsAdd_safe (score points : Int) (hpoints : points.natAbs < 2 ^ 53)
    (hsum : (score + points).natAbs < 2 ^ 53) : jsAdd score points = score + points := by
  unfold jsAdd
  rw [roundDouble_safe points hpoints, roundDouble_safe _ hsum]

/-- C12, as amended: for a connection `p` bound to a room of the store and present
in its member list, and every integer `points` (zero and negative included) such
that `points` and the sum of `p`'s previous score and `points` are below `2 ^ 53` in
magnitude, submitAnswer runs to completion; the member list splits as
`pre ++ hit :: post` with `hit` the first record of `p`, afterwards the room's member
list is the same list with the score of `hit` replaced by `hit.score + points` (ids,
names, order and all other records unchanged), `hostId`, `started` and
`currentQuestion` are unchanged, every other room code reads as before, the sockets
are unchanged, and the only message is the scoreUpdated broadcast to the room with
`p`, the name of `hit` and the new total. -/
theorem submitAnswer_adds_points (s : State) (p code : String) (room : Room)
    (q points : Int)
    (hbound : (getSocket s.sockets p).roomCode = some code)
    (hroom : ownRoom s.rooms code = some room)
    (hmember : ∃ m ∈ room.players, m.id = p)
    (hpoints : points.natAbs < 2 ^ 53)
    (hsum : ∀ hit, room.players.find? (fun m => decide (m.id = p)) = some hit →
      (hit.score + points).natAbs < 2 ^ 53) :
    ∃ pre hit post s', room.players = pre ++ hit :: post ∧ hit.id = p ∧
      (∀ m ∈ pre, m.id ≠ p) ∧
      submitAnswer s p q points = Except.ok (s',
        [Msg.toRoom code (Payload.scoreUpdated p hit.name (hit.score + points))]) ∧
      ownRoom s'.rooms code =
        some ⟨room.hostId, pre ++ ⟨hit.id, hit.name, hit.score + points⟩ :: post,
          room.started, room.currentQuestion⟩ ∧
      (∀ code', code' ≠ code → ownRoom s'.rooms code' = ownRoom s.rooms code') ∧
      s'.sockets = s.sockets := by
  obtain ⟨pre, hit, post, hsplit, hid, hpre, hfind, hadd⟩ :=
    addScore_split room.players p points hmember
  have hexact : jsAdd hit.score points = hit.score + points :=
    jsAdd_safe hit.score points hpoints (hsum hit hfind)
  rw [hexact] at hadd
  refine ⟨pre, hit, post,
    ⟨setRoom s.rooms code { room with players := addScore room.players p points },
      s.sockets⟩, hsplit, hid, hpre, ?_, ?_, fun code' hne => ownRoom_setRoom_other _ _ _ _ hne,
    rfl⟩
  · unfold submitAnswer
    simp only [hbound, getBoundRoom, getRoom_of_own hroom, hfind, hexact]
  · rw [ownRoom_setRoom_self, hadd]

theorem submitAnswer_adds_points_witness :
    submitAnswer playingState "a" 7 (-5) = Except.ok
      (⟨[("100000", ⟨"h", [⟨"a", "A", -2⟩], true, 0⟩)], playingState.sockets⟩,
       [Msg.toRoom "100000" (Payload.scoreUpdated "a" "A" (-2))]) ∧
    ∃ pre hit post s', [(⟨"a", "A", 3⟩ : Player)] = pre ++ hit :: post ∧ hit.id = "a" ∧
      (∀ m ∈ pre, m.id ≠ "a") ∧
      submitAnswer playingState "a" 7 (-5) = Except.ok (s',
        [Msg.toRoom "100000" (Payload.scoreUpdated "a" hit.name (hit.score + (-5)))]) ∧
      ownRoom s'.rooms "100000" =
        some ⟨"h", pre ++ ⟨hit.id, hit.name, hit.score + (-5)⟩ :: post, true, 0⟩ ∧
      (∀ code', code' ≠ "100000" →
        ownRoom s'.rooms code' = ownRoom playingState.rooms code') ∧
      s'.sockets = playingState.sockets :=
  ⟨by decide,
    submitAnswer_adds_points playingState "a" "100000" ⟨"h", [⟨"a", "A", 3⟩], true, 0⟩ 7 (-5)
      (by decide) (by decide) ⟨⟨"a", "A", 3⟩, by decide, by decide⟩ (by decide)
      (by
        intro hit hfind
        have h3 : List.find? (fun m => decide (m.id = "a"))
            (Room.mk "h" [⟨"a", "A", 3⟩] true 0).players = some ⟨"a", "A", 3⟩ := by decide
        rw [h3] at hfind
        cases hfind
        decide)⟩

/-- C12 fails as stated: in a reachable state where member `a` of room 100000 has
score 3, the submitAnswer of `a` with `2 ^ 53` points stores and broadcasts the
score 9007199254740996, which is not the previous score plus the points
(9007199254740995): the sum of two JavaScript numbers is rounded to the nearest
double. -/
theorem submitAnswer_adds_points_counterexample :
    run State.empty playingTrace = Except.ok playingState ∧
    ownRoom playingState.rooms "100000" = some ⟨"h", [⟨"a", "A", 3⟩], true, 0⟩ ∧
    submitAnswer playingState "a" 1 9007199254740992 = Except.ok
      (⟨[("100000", ⟨"h", [⟨"a", "A", 9007199254740996⟩], true, 0⟩)],
        playingState.sockets⟩,
       [Msg.toRoom "100000" (Payload.scoreUpdated "a" "A" 9007199254740996)]) ∧
    (9007199254740992 : Int) = 2 ^ 53 ∧
    (9007199254740996 : Int) ≠ 3 + 9007199254740992 := by
  decide

/-! ## Room codes in use are generated codes -/

theorem ownRoom_setRoom_some {rooms : List (String × Room)} {code code' : String}
    {r x : Room} (h : ownRoom (setRoom rooms code r) code' = some x) :
    code' = code ∨ ownRoom rooms code' = some x := by
  by_cases hc : code' = code
  · exact Or.inl hc
  · rw [ownRoom_setRoom_other _ _ _ _ hc] at h
    exact Or.inr h

theorem ownRoom_deleteRoom_some {rooms : List (String × Room)} {code code' : String}
    {x : Room} (h : ownRoom (deleteRoom rooms code) code' = some x) :
    ownRoom rooms code' = some x := by
  by_cases hc : code' = code
  · subst hc
    rw [ownRoom_deleteRoom_self] at h
    cases h
  · rw [ownRoom_deleteRoom_other _ _ _ hc] at h
    exact h

theorem step_codesClean {s s' : State} {sid : String} {ev : Event} {out : List Msg}
    (h : step s sid ev = Except.ok (s', out)) (hc : CodesClean s) : CodesClean s' := by
  have hstore : ∀ code room, ownRoom s'.rooms code = some room →
      code ∉ objectPrototypeKeys := by
    intro code room hroom
    have hset : ∀ (code0 : String) (r0 r : Room), ownRoom s.rooms code0 = some r0 →
        s'.rooms = setRoom s.rooms code0 r → code ∉ objectPrototypeKeys := by
      intro code0 r0 r h0 he
      rw [he] at hroom
      rcases ownRoom_setRoom_some hroom with heq | hold
      · rw [heq]; exact hc.1 code0 r0 h0
      · exact hc.1 code room hold
    have hupd := step_update h
    cases hupd with
    | same ev he => rw [he] at hroom; exact hc.1 code room hroom
    | created draws code0 hgen he =>
      rw [he] at hroom
      rcases ownRoom_setRoom_some hroom with heq | hold
      · obtain ⟨⟨d, hd⟩, -⟩ := generateRoomCode_some _ _ _ hgen
        rw [heq, hd]
        exact roomCode_not_prototypeKey d
      · exact hc.1 code room hold
    | joined code0 playerName r0 hr0 hst hex he => exact hset code0 r0 _ hr0 he
    | started code0 r0 hr0 hh he => exact hset code0 r0 _ hr0 he
    | scored code0 r0 q points hr0 he => exact hset code0 r0 _ hr0 he
    | deleted code0 he =>
      rw [he] at hroom
      exact hc.1 code room (ownRoom_deleteRoom_some hroom)
    | left code0 r0 hr0 he => exact hset code0 r0 _ hr0 he
  refine ⟨hstore, ?_⟩
  intro sid' code hb
  cases ev with
  | createGame draws =>
    obtain ⟨code0, hgen, hrooms, hsockets, -⟩ := createGame_ok h
    rw [hsockets] at hb
    by_cases hs : sid' = sid
    · subst hs
      rw [getSocket_setSocket_self] at hb
      simp only [Option.some.injEq] at hb
      obtain ⟨⟨d, hd⟩, -⟩ := generateRoomCode_some _ _ _ hgen
      rw [← hb, hd]
      exact roomCode_not_prototypeKey d
    · rw [getSocket_setSocket_other _ _ _ _ hs] at hb
      exact hc.2 sid' code hb
  | joinGame roomCode playerName =>
    rcases joinGame_ok h with hsame | ⟨room, hroom, hsockets⟩
    · rw [hsame] at hb
      exact hc.2 sid' code hb
    · rw [hsockets] at hb
      by_cases hs : sid' = sid
      · subst hs
        rw [getSocket_setSocket_self] at hb
        simp only [Option.some.injEq] at hb
        rw [← hb]
        exact hc.1 roomCode room hroom
      · rw [getSocket_setSocket_other _ _ _ _ hs] at hb
        exact hc.2 sid' code hb
  | startGame =>
    rw [(startGame_update h).2] at hb
    exact hc.2 sid' code hb
  | submitAnswer q points =>
    have h' : submitAnswer s sid q points = Except.ok (s', out) := h
    rw [(submitAnswer_update h').2] at hb
    exact hc.2 sid' code hb
  | endGame =>
    rw [endGame_state h] at hb
    exact hc.2 sid' code hb
  | disconnect =>
    rw [(disconnect_update h).2] at hb
    by_cases hs : sid' = sid
    · subst hs
      rw [getSocket_dropSocket_self] at hb
      simp [Socket.fresh] at hb
    · rw [getSocket_dropSocket_other _ _ _ hs] at hb
      exact hc.2 sid' code hb

theorem reachable_codesClean {s : State} (hreach : Reachable s) : CodesClean s := by
  induction hreach with
  | init =>
    constructor
    · intro code room h
      simp [State.empty, ownRoom] at h
    · intro sid code h
      simp [State.empty, getSocket, ownSocket, Socket.fresh] at h
  | step sid ev _ hstep ih => exact step_codesClean hstep ih

/-- C13: in every state the server can reach, for every connection that has no bound
room, whose bound room is not in the store, or that has no record in the member
list of its bound room (the host included), submitAnswer runs to completion, emits
no message at all and leaves the state (store and all socket fields) unchanged. -/
theorem submitAnswer_non_member_silent (s : State) (hreach : Reachable s) (sid : String)
    (q points : Int)
    (hnot : ∀ code room, (getSocket s.sockets sid).roomCode = some code →
      ownRoom s.rooms code = some room → ∀ m ∈ room.players, m.id ≠ sid) :
    submitAnswer s sid q points = Except.ok (s, []) := by
  have hclean := reachable_codesClean hreach
  unfold submitAnswer
  cases hb : (getSocket s.sockets sid).roomCode with
  | none => simp [getBoundRoom]
  | some code =>
    cases ho : ownRoom s.rooms code with
    | none =>
      have hproto : code ∉ objectPrototypeKeys := hclean.2 sid code hb
      simp [getBoundRoom, getRoom, ho, hproto]
    | some room =>
      have hfind : room.players.find? (fun p => decide (p.id = sid)) = none := by
        rw [List.find?_eq_none]
        intro m hm
        simpa using hnot code room hb ho m hm
      simp only [getBoundRoom, getRoom_of_own ho, hfind]

theorem submitAnswer_non_member_silent_witness :
    Reachable lobbyState ∧
    submitAnswer lobbyState "h" 0 5 = Except.ok (lobbyState, []) ∧
    submitAnswer lobbyState "z" 0 5 = Except.ok (lobbyState, []) :=
  ⟨lobbyState_reachable,
    submitAnswer_non_member_silent lobbyState lobbyState_reachable "h" 0 5 (by
      intro code room hb hr m hm
      have hc : (getSocket lobbyState.sockets "h").roomCode = some "100000" := by decide
      rw [hc] at hb
      cases hb
      have hr0 : ownRoom lobbyState.rooms "100000" =
          some ⟨"h", [⟨"a", "A", 0⟩], false, 0⟩ := by decide
      rw [hr0] at hr
      cases hr
      simp only [List.mem_singleton] at hm
      subst hm
      decide),
    by decide⟩

/-! ## Successive joins -/

theorem joinGame_success (s : State) (sid code playerName : String) (room : Room)
    (hroom : ownRoom s.rooms code = some room) (hlobby : room.started = false)
    (hfree : nameExists room.players playerName = false) :
    joinGame s sid code playerName = Except.ok
      (⟨setRoom s.rooms code
          { room with players := room.players ++ [Player.mk sid playerName 0] },
        setSocket s.sockets sid
          { (getSocket s.sockets sid).join code with
            roomCode := some code, playerName := some playerName, isHost := false }⟩,
       [Msg.toRoom code (Payload.playerList (room.players ++ [Player.mk sid playerName 0])
          (room.players ++ [Player.mk sid playerName 0]).length),
        Msg.toSocket sid (Payload.joinedGame code playerName)]) := by
  unfold joinGame
  rw [getRoom_of_own hroom]
  simp [hlobby, hfree]

theorem runOut_joins (code : String) (joins : List (String × String)) :
    ∀ (s : State) (room : Room), ownRoom s.rooms code = some room → room.started = false →
      (joins.map Prod.snd).Nodup →
      (∀ j ∈ joins, nameExists room.players j.2 = false) →
      ∃ s', runOut s (joinEvents code joins) =
          Except.ok (s', joinMessages code room.players joins) ∧
        ownRoom s'.rooms code =
          some { room with players := room.players ++ joinedPlayers joins } := by
  induction joins with
  | nil =>
    intro s room hroom _ _ _
    exact ⟨s, rfl, by simpa [joinedPlayers] using hroom⟩
  | cons j rest ih =>
    intro s room hroom hlobby hnames hfree
    obtain ⟨sid, playerName⟩ := j
    have hj := joinGame_success s sid code playerName room hroom hlobby
      (hfree (sid, playerName) (List.mem_cons_self _ _))
    simp only [List.map_cons, List.nodup_cons] at hnames
    have hfree' : ∀ j ∈ rest, nameExists
        (room.players ++ [Player.mk sid playerName 0]) j.2 = false := by
      intro j hjr
      have hold := hfree j (List.mem_cons_of_mem _ hjr)
      have hne : ¬ playerName = j.2 := by
        intro heq
        exact hnames.1 (heq ▸ List.mem_map_of_mem Prod.snd hjr)
      simp only [nameExists, List.any_append, Bool.or_eq_false_iff] at hold ⊢
      exact ⟨hold, by simp [hne]⟩
    obtain ⟨s', hrun, hafter⟩ := ih
      ⟨setRoom s.rooms code
          { room with players := room.players ++ [Player.mk sid playerName 0] },
        setSocket s.sockets sid
          { (getSocket s.sockets sid).join code with
            roomCode := some code, playerName := some playerName, isHost := false }⟩
      { room with players := room.players ++ [Player.mk sid playerName 0] }
      (ownRoom_setRoom_self _ _ _) hlobby hnames.2 hfree'
    refine ⟨s', ?_, ?_⟩
    · simp only [joinEvents, List.map_cons, runOut, step, hj]
      simp only [joinEvents] at hrun
      simp [hrun, joinMessages]
    · rw [hafter]
      simp [joinedPlayers]

theorem joinMessages_count (code : String) (joins : List (String × String)) :
    ∀ (before : List Player), ∀ m ∈ joinMessages code before joins,
      ∀ (c : String) (players : List Player) (count : Nat),
        m = Msg.toRoom c (Payload.playerList players count) → count = players.length := by
  induction joins with
  | nil => intro before m hm; simp [joinMessages] at hm
  | cons j rest ih =>
    intro before m hm c players count heq
    obtain ⟨sid, playerName⟩ := j
    simp only [joinMessages, List.mem_cons] at hm
    rcases hm with hm | hm | hm
    · rw [hm] at heq
      simp only [Msg.toRoom.injEq, Payload.playerList.injEq] at heq
      rw [← heq.2.1, ← heq.2.2]
    · rw [hm] at heq
      cases heq
    · exact ih _ m hm c players count heq

theorem joinMessages_confirms (code : String) (joins : List (String × String)) :
    ∀ (before : List Player), ∀ j ∈ joins,
      Msg.toSocket j.1 (Payload.joinedGame code j.2) ∈ joinMessages code before joins := by
  induction joins with
  | nil => intro before j hj; simp at hj
  | cons j0 rest ih =>
    intro before j hj
    obtain ⟨sid, playerName⟩ := j0
    simp only [joinMessages, List.mem_cons]
    rcases List.mem_cons.1 hj with h | h
    · subst h
      exact Or.inr (Or.inl rfl)
    · exact Or.inr (Or.inr (ih _ j h))

/-- C11: for every room of the store that is not started and has no members, and
every list of joins (connection and name) with pairwise distinct names, running the
joinGame events in that order runs to completion and every join succeeds (each
joining connection gets its joinedGame confirmation); afterwards the member list has
one record per join, in join order, each with the joining connection's id, the
joined name and score 0, and every playerList broadcast carries a count equal to the
length of the list it carries. -/
theorem joins_preserve_order (s : State) (code : String) (room : Room)
    (joins : List (String × String))
    (hroom : ownRoom s.rooms code = some room) (hlobby : room.started = false)
    (hempty : room.players = []) (hnames : (joins.map Prod.snd).Nodup) :
    ∃ s', runOut s (joinEvents code joins) = Except.ok (s', joinMessages code [] joins) ∧
      ownRoom s'.rooms code =
        some ⟨room.hostId, joinedPlayers joins, false, room.currentQuestion⟩ ∧
      (joinedPlayers joins).length = joins.length ∧
      (∀ j ∈ joins,
        Msg.toSocket j.1 (Payload.joinedGame code j.2) ∈ joinMessages code [] joins) ∧
      (∀ m ∈ joinMessages code [] joins, ∀ (c : String) (players : List Player) (count : Nat),
        m = Msg.toRoom c (Payload.playerList players count) → count = players.length) := by
  obtain ⟨s', hrun, hafter⟩ := runOut_joins code joins s room hroom hlobby hnames
    (by intro j _; simp [hempty, nameExists])
  rw [hempty] at hrun
  refine ⟨s', hrun, ?_, by simp [joinedPlayers], joinMessages_confirms code joins [],
    joinMessages_count code joins []⟩
  rw [hafter, hempty, ← hlobby]
  simp

theorem joins_preserve_order_witness :
    runOut createdState (joinEvents "100000" [("a", "A"), ("b", "B")]) = Except.ok
      (⟨[("100000", ⟨"h", [⟨"a", "A", 0⟩, ⟨"b", "B", 0⟩], false, 0⟩)],
        [("h", ⟨some "100000", true, none, ["100000"]⟩),
         ("a", ⟨some "100000", false, some "A", ["100000"]⟩),
         ("b", ⟨some "100000", false, some "B", ["100000"]⟩)]⟩,
       [Msg.toRoom "100000" (Payload.playerList [⟨"a", "A", 0⟩] 1),
        Msg.toSocket "a" (Payload.joinedGame "100000" "A"),
        Msg.toRoom "100000" (Payload.playerList [⟨"a", "A", 0⟩, ⟨"b", "B", 0⟩] 2),
        Msg.toSocket "b" (Payload.joinedGame "100000" "B")]) ∧
    ∃ s', runOut createdState (joinEvents "100000" [("a", "A"), ("b", "B")]) =
        Except.ok (s', joinMessages "100000" [] [("a", "A"), ("b", "B")]) ∧
      ownRoom s'.rooms "100000" =
        some ⟨"h", joinedPlayers [("a", "A"), ("b", "B")], false, 0⟩ ∧
      (joinedPlayers [("a", "A"), ("b", "B")]).length = [("a", "A"), ("b", "B")].length ∧
      (∀ j ∈ [("a", "A"), ("b", "B")],
        Msg.toSocket j.1 (Payload.joinedGame "100000" j.2) ∈
          joinMessages "100000" [] [("a", "A"), ("b", "B")]) ∧
      (∀ m ∈ joinMessages "100000" [] [("a", "A"), ("b", "B")],
        ∀ (c : String) (players : List Player) (count : Nat),
          m = Msg.toRoom c (Payload.playerList players count) → count = players.length) :=
  ⟨by decide,
    joins_preserve_order createdState "100000" ⟨"h", [], false, 0⟩ [("a", "A"), ("b", "B")]
      (by decide) rfl rfl (by decide)⟩

/-! ## Events after endGame -/

theorem update_keeps_started_room {sid : String} {rooms rooms' : List (String × Room)}
    {ev : Event} (hupd : StoreUpdate sid rooms rooms' ev) (hev : ev.isJoinOrStart = true)
    (code : String) (room : Room) (hroom : ownRoom rooms code = some room)
    (hstarted : room.started = true) : ownRoom rooms' code = some room := by
  cases hupd with
  | same ev he => rw [he]; exact hroom
  | created draws code0 hgen he => simp [Event.isJoinOrStart] at hev
  | joined code0 playerName r0 hr0 hst hex he =>
    have hne : code ≠ code0 := by
      rintro rfl
      rw [hroom] at hr0
      cases hr0
      rw [hstarted] at hst
      cases hst
    rw [he, ownRoom_setRoom_other _ _ _ _ hne]
    exact hroom
  | started code0 r0 hr0 hh he =>
    by_cases hc : code = code0
    · subst hc
      rw [hroom] at hr0
      cases hr0
      rw [he, ownRoom_setRoom_self, ← hstarted]
    · rw [he, ownRoom_setRoom_other _ _ _ _ hc]
      exact hroom
  | scored code0 r0 q points hr0 he => simp [Event.isJoinOrStart] at hev
  | deleted code0 he => simp [Event.isJoinOrStart] at hev
  | left code0 r0 hr0 he => simp [Event.isJoinOrStart] at hev

theorem run_keeps_started_room (code : String) (room : Room) (hstarted : room.started = true)
    (evs : List (String × Event)) : ∀ {s s' : State},
    (∀ e ∈ evs, e.2.isJoinOrStart = true) → run s evs = Except.ok s' →
    ownRoom s.rooms code = some room → ownRoom s'.rooms code = some room := by
  induction evs with
  | nil =>
    intro s s' _ h hroom
    simp only [run, Except.ok.injEq] at h
    exact h ▸ hroom
  | cons e rest ih =>
    intro s s' hevs h hroom
    obtain ⟨sid, ev⟩ := e
    simp only [run] at h
    cases hstep : step s sid ev with
    | error f => simp [hstep] at h
    | ok r =>
      obtain ⟨s1, out⟩ := r
      simp only [hstep] at h
      have hev : ev.isJoinOrStart = true := hevs (sid, ev) (List.mem_cons_self _ _)
      exact ih (fun e he => hevs e (List.mem_cons_of_mem _ he)) h
        (update_keeps_started_room (step_update hstep) hev code room hroom hstarted)

/-- C16, as amended: when the host of a room sends endGame, the leaderboard is
broadcast and the state is left unchanged, no Ended phase being recorded.  If the
room has been started, every sequence of later joinGame and startGame events, by any
connections, that runs to completion leaves the room's record unchanged; a later
submitAnswer of a connection bound to the room and present in its member list is
still accepted: it runs to completion and the room's member list becomes the one
with the points added to that member's score. -/
theorem endGame_then_events (s : State) (sid code : String) (room : Room)
    (hbound : (getSocket s.sockets sid).roomCode = some code)
    (hroom : ownRoom s.rooms code = some room) (hhost : room.hostId = sid) :
    endGame s sid =
      Except.ok (s, [Msg.toRoom code (Payload.gameEnded (sortPlayers room.players))]) ∧
    (room.started = true → ∀ (evs : List (String × Event)) (s' : State),
      (∀ e ∈ evs, e.2.isJoinOrStart = true) → run s evs = Except.ok s' →
      ownRoom s'.rooms code = some room) ∧
    (∀ (p : String) (q points : Int), (getSocket s.sockets p).roomCode = some code →
      (∃ m ∈ room.players, m.id = p) →
      ∃ s' out, submitAnswer s p q points = Except.ok (s', out) ∧
        ownRoom s'.rooms code =
          some { room with players := addScore room.players p points }) := by
  refine ⟨?_, ?_, ?_⟩
  · unfold endGame
    simp only [hbound, getBoundRoom, getRoom_of_own hroom]
    simp [hhost]
  · intro hstarted evs s' hevs hrun
    exact run_keeps_started_room code room hstarted evs hevs hrun hroom
  · intro p q points hp hmember
    obtain ⟨pre, hit, post, -, -, -, hfind, -⟩ := addScore_split room.players p points hmember
    refine ⟨⟨setRoom s.rooms code { room with players := addScore room.players p points },
      s.sockets⟩,
      [Msg.toRoom code (Payload.scoreUpdated p hit.name (jsAdd hit.score points))],
      ?_, ownRoom_setRoom_self _ _ _⟩
    unfold submitAnswer
    simp only [hp, getBoundRoom, getRoom_of_own hroom, hfind]

theorem endGame_then_events_witness :
    endGame playingState "h" = Except.ok (playingState,
      [Msg.toRoom "100000" (Payload.gameEnded
        (sortPlayers (Room.mk "h" [⟨"a", "A", 3⟩] true 0).players))]) ∧
    ((Room.mk "h" [⟨"a", "A", 3⟩] true 0).started = true →
      ∀ (evs : List (String × Event)) (s' : State),
      (∀ e ∈ evs, e.2.isJoinOrStart = true) → run playingState evs = Except.ok s' →
      ownRoom s'.rooms "100000" = some ⟨"h", [⟨"a", "A", 3⟩], true, 0⟩) ∧
    (∀ (p : String) (q points : Int),
      (getSocket playingState.sockets p).roomCode = some "100000" →
      (∃ m ∈ (Room.mk "h" [⟨"a", "A", 3⟩] true 0).players, m.id = p) →
      ∃ s' out, submitAnswer playingState p q points = Except.ok (s', out) ∧
        ownRoom s'.rooms "100000" =
          some { (Room.mk "h" [⟨"a", "A", 3⟩] true 0) with
            players := addScore (Room.mk "h" [⟨"a", "A", 3⟩] true 0).players p points }) :=
  endGame_then_events playingState "h" "100000" ⟨"h", [⟨"a", "A", 3⟩], true, 0⟩
    (by decide) (by decide) rfl

/-- C16 fails as stated: in a reachable state, after the host `h` of room 100000 has
sent endGame and the leaderboard has been broadcast, the submitAnswer of member `a`
with 5 points is accepted and changes the room's record (score 3 becomes 8). -/
theorem endGame_then_events_counterexample :
    run State.empty playingTrace = Except.ok playingState ∧
    step playingState "h" Event.endGame = Except.ok (playingState,
      [Msg.toRoom "100000" (Payload.gameEnded [⟨"a", "A", 3⟩])]) ∧
    step playingState "a" (Event.submitAnswer 1 5) = Except.ok
      (⟨[("100000", ⟨"h", [⟨"a", "A", 8⟩], true, 0⟩)], playingState.sockets⟩,
       [Msg.toRoom "100000" (Payload.scoreUpdated "a" "A" 8)]) ∧
    ownRoom playingState.rooms "100000" = some ⟨"h", [⟨"a", "A", 3⟩], true, 0⟩ ∧
    ownRoom [("100000", (⟨"h", [⟨"a", "A", 8⟩], true, 0⟩ : Room))] "100000" ≠
      ownRoom playingState.rooms "100000" := by
  decide

end GameServer
